import Mathlib

/-!
A shallow embedding of `src/SimpleTimer.cpp` (the `SimpleTimer` class: a
fixed-capacity polled timer scheduler for Arduino-style environments),
together with theorems checking the natural-language specification
against it.

Modelling conventions:
* `unsigned long` values (`millis()` results, `prev_millis`) are `Nat`
  reduced modulo `2^32` (AVR `unsigned long` is 32 bits); the C++ modular
  subtraction `current_millis - prev_millis[i]` is `wsub`, and the
  conversion of a `long` to `unsigned long` at the comparison / `+=` site
  is `toULong`.
* `long` (`delays`) and `int` (`maxNumRuns`, `numRuns`, `numTimers`)
  values are mathematical `Int` (no reachable computation overflows them).
* A callback pointer is an opaque `Nat` id; `0` is the null pointer, which
  also marks a slot as free.  The behaviour of invoking a callback is
  supplied as an environment `cbSem : Nat → SimpleTimer → SimpleTimer`
  (a callback runs synchronously and may mutate the timer set through the
  public API, e.g. delete or reconfigure slots); `run` additionally
  returns the list of slot indices whose callbacks it invoked, in order.
* The clock (`millis()`/`elapsed()`) is injected: every member function
  that reads the clock takes the current tick value as an argument.
* Index-addressed member functions take their `int` argument as `Int` and
  return `Option _`: `none` models an out-of-bounds array access
  (the C++ code only guards `numTimer >= MAX_TIMERS`, so a negative index
  reaches `callbacks[numTimer]`/`enabled[numTimer]` out of bounds).
-/

namespace SimpleTimerSpec

/-- `MAX_TIMERS` from the source: capacity of the pool. -/
abbrev MAX_TIMERS : Nat := 10

/-- `RUN_FOREVER` constant (run limit 0 means unbounded). -/
abbrev RUN_FOREVER : Int := 0

/-- `RUN_ONCE` constant. -/
abbrev RUN_ONCE : Int := 1

/-- `DEFCALL_DONTRUN`: do not call the callback. -/
abbrev DEFCALL_DONTRUN : Nat := 0

/-- `DEFCALL_RUNONLY`: call the callback but keep the timer. -/
abbrev DEFCALL_RUNONLY : Nat := 1

/-- `DEFCALL_RUNANDDEL`: call the callback and delete the timer. -/
abbrev DEFCALL_RUNANDDEL : Nat := 2

/-- Modulus of AVR `unsigned long` arithmetic (32 bits). -/
abbrev ULONG_MOD : Nat := 4294967296

/-- C++ conversion of a `long` value to `unsigned long` (as happens in
`current_millis - prev_millis[i] >= delays[i]` and in
`prev_millis[i] += delays[i]`): reduction modulo `2^32`. -/
def toULong (x : Int) : Nat := (x % (ULONG_MOD : Int)).toNat

/-- The wraparound-safe unsigned subtraction `a - b` on `unsigned long`,
written so that it is total on `Nat`: for `a b < ULONG_MOD` it equals
C++'s `a - b` on `unsigned long`. -/
def wsub (a b : Nat) : Nat := (a + (ULONG_MOD - b % ULONG_MOD)) % ULONG_MOD

/-- The state of one `SimpleTimer` object: the parallel arrays and
`numTimers` from the private section of the class. -/
structure SimpleTimer where
  prev_millis : Fin MAX_TIMERS → Nat
  callbacks : Fin MAX_TIMERS → Nat
  delays : Fin MAX_TIMERS → Int
  maxNumRuns : Fin MAX_TIMERS → Int
  numRuns : Fin MAX_TIMERS → Int
  enabled : Fin MAX_TIMERS → Bool
  toBeCalled : Fin MAX_TIMERS → Nat
  numTimers : Int

namespace SimpleTimer

/-- The constructor `SimpleTimer::SimpleTimer()`.  It initialises
`enabled`, `callbacks`, `prev_millis`, `numRuns` and `numTimers`; the
arrays `delays`, `maxNumRuns` and `toBeCalled` are left uninitialised in
the source, so the model takes their initial (junk) contents as
parameters. -/
def init (now : Nat) (delays0 maxNumRuns0 : Fin MAX_TIMERS → Int)
    (toBeCalled0 : Fin MAX_TIMERS → Nat) : SimpleTimer :=
  { prev_millis := fun _ => now
    callbacks := fun _ => 0
    delays := delays0
    maxNumRuns := maxNumRuns0
    numRuns := fun _ => 0
    enabled := fun _ => false
    toBeCalled := toBeCalled0
    numTimers := 0 }

/-- The firing test of `run()`:
`callbacks[i]` is non-null and `current_millis - prev_millis[i] >= delays[i]`
(the `long` right-hand side is converted to `unsigned long`). -/
def dueP (now : Nat) (s : SimpleTimer) (i : Fin MAX_TIMERS) : Prop :=
  s.callbacks i ≠ 0 ∧ toULong (s.delays i) ≤ wsub now (s.prev_millis i)

instance (now : Nat) (s : SimpleTimer) (i : Fin MAX_TIMERS) : Decidable (dueP now s i) :=
  inferInstanceAs (Decidable (_ ∧ _))

/-- The deferred-call decision taken for slot `i` in the first loop of
`run()` (the value stored into `toBeCalled[i]`). -/
def decideAction (now : Nat) (s : SimpleTimer) (i : Fin MAX_TIMERS) : Nat :=
  if dueP now s i then
    if s.enabled i then
      if s.maxNumRuns i = RUN_FOREVER then DEFCALL_RUNONLY
      else if s.numRuns i < s.maxNumRuns i then
        if s.maxNumRuns i ≤ s.numRuns i + 1 then DEFCALL_RUNANDDEL else DEFCALL_RUNONLY
      else DEFCALL_DONTRUN
    else DEFCALL_DONTRUN
  else DEFCALL_DONTRUN

/-- Phase 1 of `run()` (the first `for` loop).  Each iteration reads and
writes only slot `i`, so the loop is the pointwise update: when slot `i`
is due, `prev_millis[i] += delays[i]` and, if the slot is enabled and
bounded with runs remaining, `numRuns[i]++`; `toBeCalled[i]` receives the
decided action. -/
def phase1 (now : Nat) (s : SimpleTimer) : SimpleTimer :=
  { s with
    prev_millis := fun i =>
      if dueP now s i then (s.prev_millis i + toULong (s.delays i)) % ULONG_MOD
      else s.prev_millis i
    numRuns := fun i =>
      if dueP now s i ∧ s.enabled i = true ∧ s.maxNumRuns i ≠ RUN_FOREVER ∧
          s.numRuns i < s.maxNumRuns i then
        s.numRuns i + 1
      else s.numRuns i
    toBeCalled := fun i => decideAction now s i }

/-- The body of `SimpleTimer::deleteTimer` once the index is known to be
in range (the part after the `timerId >= MAX_TIMERS` guard): if no timers
are in use, or the slot is already empty, nothing happens; otherwise the
slot is cleared and `numTimers` decremented. -/
def deleteTimerCore (i : Fin MAX_TIMERS) (s : SimpleTimer) : SimpleTimer :=
  if s.numTimers = 0 then s
  else if s.callbacks i ≠ 0 then
    { s with
      callbacks := Function.update s.callbacks i 0
      enabled := Function.update s.enabled i false
      toBeCalled := Function.update s.toBeCalled i DEFCALL_DONTRUN
      delays := Function.update s.delays i 0
      numRuns := Function.update s.numRuns i 0
      numTimers := s.numTimers - 1 }
  else s

/-- One iteration of phase 2 of `run()` (the `switch` in the second `for`
loop): `DEFCALL_RUNONLY` invokes the callback, `DEFCALL_RUNANDDEL`
invokes the callback and then calls `deleteTimer(i)` (whose index is in
range, hence `deleteTimerCore`), anything else does nothing. -/
def fireSlot (cbSem : Nat → SimpleTimer → SimpleTimer) (i : Fin MAX_TIMERS)
    (s : SimpleTimer) : SimpleTimer :=
  if s.toBeCalled i = DEFCALL_RUNONLY then cbSem (s.callbacks i) s
  else if s.toBeCalled i = DEFCALL_RUNANDDEL then deleteTimerCore i (cbSem (s.callbacks i) s)
  else s

/-- Phase 2 of `run()` over a list of slot indices, also returning the
slot indices whose callbacks were invoked, in order. -/
def phase2 (cbSem : Nat → SimpleTimer → SimpleTimer) :
    List (Fin MAX_TIMERS) → SimpleTimer → SimpleTimer × List (Fin MAX_TIMERS)
  | [], s => (s, [])
  | i :: l, s =>
    let r := phase2 cbSem l (fireSlot cbSem i s)
    if s.toBeCalled i = DEFCALL_RUNONLY ∨ s.toBeCalled i = DEFCALL_RUNANDDEL then
      (r.1, i :: r.2)
    else (r.1, r.2)

/-- `SimpleTimer::run()` at clock value `now`: phase 1 decides every
slot's action, phase 2 executes the decisions over slots `0..MAX_TIMERS-1`
in order.  Also returns the fire log (invoked slot indices in order). -/
def run (cbSem : Nat → SimpleTimer → SimpleTimer) (now : Nat) (s : SimpleTimer) :
    SimpleTimer × List (Fin MAX_TIMERS) :=
  phase2 cbSem (List.finRange MAX_TIMERS) (phase1 now s)

/-- A sequence of `run()` calls at the given clock values, concatenating
the fire logs. -/
def runSeq (cbSem : Nat → SimpleTimer → SimpleTimer) :
    List Nat → SimpleTimer → SimpleTimer × List (Fin MAX_TIMERS)
  | [], s => (s, [])
  | t :: ts, s =>
    let r := run cbSem t s
    let r2 := runSeq cbSem ts r.1
    (r2.1, r.2 ++ r2.2)

/-- The scan loop of `SimpleTimer::findFirstFreeSlot`, starting at index
`k`: the first slot at or after `k` whose callback pointer is null.
The structural `fuel` argument bounds the number of remaining
iterations; the loop runs it with `fuel = MAX_TIMERS` from `k = 0`,
which covers every index before fuel runs out. -/
def findFreeAux (s : SimpleTimer) : Nat → Nat → Option (Fin MAX_TIMERS)
  | 0, _ => none
  | fuel + 1, k =>
    if h : k < MAX_TIMERS then
      if s.callbacks ⟨k, h⟩ = 0 then some ⟨k, h⟩ else findFreeAux s fuel (k + 1)
    else none

/-- `SimpleTimer::findFirstFreeSlot`: `none` models the `-1` return
(all slots used, or no free slot found). -/
def findFirstFreeSlot (s : SimpleTimer) : Option (Fin MAX_TIMERS) :=
  if (MAX_TIMERS : Int) ≤ s.numTimers then none else findFreeAux s MAX_TIMERS 0

/-- `SimpleTimer::setTimer(d, f, n)` at clock value `now`.  Returns the
`int` result (`-1` on failure, otherwise the chosen slot index) and the
new state. -/
def setTimer (d : Int) (f : Nat) (n : Int) (now : Nat) (s : SimpleTimer) :
    Int × SimpleTimer :=
  match findFirstFreeSlot s with
  | none => (-1, s)
  | some j =>
    if f = 0 then (-1, s)
    else
      (((j : Nat) : Int),
        { s with
          delays := Function.update s.delays j d
          callbacks := Function.update s.callbacks j f
          maxNumRuns := Function.update s.maxNumRuns j n
          enabled := Function.update s.enabled j true
          prev_millis := Function.update s.prev_millis j now
          numTimers := s.numTimers + 1 })

/-- `SimpleTimer::setInterval`. -/
def setInterval (d : Int) (f : Nat) (now : Nat) (s : SimpleTimer) : Int × SimpleTimer :=
  setTimer d f RUN_FOREVER now s

/-- `SimpleTimer::setTimeout`. -/
def setTimeout (d : Int) (f : Nat) (now : Nat) (s : SimpleTimer) : Int × SimpleTimer :=
  setTimer d f RUN_ONCE now s

/-- `SimpleTimer::deleteTimer(timerId)`.  Guards only
`timerId >= MAX_TIMERS`; a negative index then reaches
`callbacks[timerId]` (out of bounds, modelled `none`) unless the earlier
`numTimers == 0` early-return fires first. -/
def deleteTimer (timerId : Int) (s : SimpleTimer) : Option SimpleTimer :=
  if h1 : (MAX_TIMERS : Int) ≤ timerId then some s
  else if s.numTimers = 0 then some s
  else if h2 : timerId < 0 then none
  else some (deleteTimerCore ⟨timerId.toNat, by simp only [MAX_TIMERS] at h1 ⊢; omega⟩ s)

/-- `SimpleTimer::restartTimer(numTimer)` at clock value `now`: resets
the slot's baseline to the current tick.  Only the upper bound is
guarded. -/
def restartTimer (numTimer : Int) (now : Nat) (s : SimpleTimer) : Option SimpleTimer :=
  if h1 : (MAX_TIMERS : Int) ≤ numTimer then some s
  else if h2 : numTimer < 0 then none
  else some
    { s with
      prev_millis :=
        Function.update s.prev_millis ⟨numTimer.toNat, by simp only [MAX_TIMERS] at h1 ⊢; omega⟩ now }

/-- `SimpleTimer::isEnabled(numTimer)`: `false` for an index `≥ MAX_TIMERS`,
otherwise the slot's flag.  Only the upper bound is guarded. -/
def isEnabled (numTimer : Int) (s : SimpleTimer) : Option Bool :=
  if h1 : (MAX_TIMERS : Int) ≤ numTimer then some false
  else if h2 : numTimer < 0 then none
  else some (s.enabled ⟨numTimer.toNat, by simp only [MAX_TIMERS] at h1 ⊢; omega⟩)

/-- `SimpleTimer::enable(numTimer)`. -/
def enable (numTimer : Int) (s : SimpleTimer) : Option SimpleTimer :=
  if h1 : (MAX_TIMERS : Int) ≤ numTimer then some s
  else if h2 : numTimer < 0 then none
  else some
    { s with
      enabled :=
        Function.update s.enabled ⟨numTimer.toNat, by simp only [MAX_TIMERS] at h1 ⊢; omega⟩ true }

/-- `SimpleTimer::disable(numTimer)`. -/
def disable (numTimer : Int) (s : SimpleTimer) : Option SimpleTimer :=
  if h1 : (MAX_TIMERS : Int) ≤ numTimer then some s
  else if h2 : numTimer < 0 then none
  else some
    { s with
      enabled :=
        Function.update s.enabled ⟨numTimer.toNat, by simp only [MAX_TIMERS] at h1 ⊢; omega⟩ false }

/-- `SimpleTimer::toggle(numTimer)`. -/
def toggle (numTimer : Int) (s : SimpleTimer) : Option SimpleTimer :=
  if h1 : (MAX_TIMERS : Int) ≤ numTimer then some s
  else if h2 : numTimer < 0 then none
  else some
    { s with
      enabled :=
        let j : Fin MAX_TIMERS := ⟨numTimer.toNat, by simp only [MAX_TIMERS] at h1 ⊢; omega⟩
        Function.update s.enabled j (!s.enabled j) }

/-- `SimpleTimer::getNumTimers()`. -/
def getNumTimers (s : SimpleTimer) : Int := s.numTimers

/-- `SimpleTimer::getNumAvailableTimers()`. -/
def getNumAvailableTimers (s : SimpleTimer) : Int := (MAX_TIMERS : Int) - s.numTimers

/-- Number of in-use slots (slots whose callback pointer is non-null),
as a function of the `callbacks` array. -/
def inUseCountF (g : Fin MAX_TIMERS → Nat) : Nat :=
  (Finset.univ.filter (fun i => g i ≠ 0)).card

/-- Number of in-use slots of a state. -/
def inUseCount (s : SimpleTimer) : Nat := inUseCountF s.callbacks

/-- The bookkeeping invariant of the spec: `numTimers` equals the number
of slots whose callback is present, and does not exceed the capacity. -/
def Inv (s : SimpleTimer) : Prop :=
  s.numTimers = (inUseCount s : Int) ∧ s.numTimers ≤ (MAX_TIMERS : Int)

instance (s : SimpleTimer) : Decidable (Inv s) :=
  inferInstanceAs (Decidable (_ ∧ _))

/-- All fields of slot `j` agree between states `s` and `t`. -/
def SlotEq (j : Fin MAX_TIMERS) (s t : SimpleTimer) : Prop :=
  t.prev_millis j = s.prev_millis j ∧ t.callbacks j = s.callbacks j ∧
  t.delays j = s.delays j ∧ t.maxNumRuns j = s.maxNumRuns j ∧
  t.numRuns j = s.numRuns j ∧ t.enabled j = s.enabled j ∧
  t.toBeCalled j = s.toBeCalled j

instance (j : Fin MAX_TIMERS) (s t : SimpleTimer) : Decidable (SlotEq j s t) :=
  inferInstanceAs (Decidable (_ ∧ _))

/-- The per-slot registered configuration used by the spec claims:
callback id `c`, period `p` (a non-negative `long`), run limit `n`,
runs so far `r`, enabled, baseline `b`. -/
def SlotCfg (s : SimpleTimer) (j : Fin MAX_TIMERS) (c : Nat) (p : Nat) (n r : Int)
    (b : Nat) : Prop :=
  s.callbacks j = c ∧ s.delays j = ((p : Nat) : Int) ∧ s.maxNumRuns j = n ∧
  s.numRuns j = r ∧ s.enabled j = true ∧ s.prev_millis j = b

instance (s : SimpleTimer) (j : Fin MAX_TIMERS) (c : Nat) (p : Nat) (n r : Int) (b : Nat) :
    Decidable (SlotCfg s j c p n r b) :=
  inferInstanceAs (Decidable (_ ∧ _))

/-- The identity callback environment: callbacks that do not touch the
timer set. -/
def cbPure : Nat → SimpleTimer → SimpleTimer := fun _ t => t

/-- A callback environment in which callback id `1` calls
`deleteTimer(1)` on the same timer set (and every other callback does
nothing). -/
def cbDel1 : Nat → SimpleTimer → SimpleTimer :=
  fun c t => if c = 1 then (deleteTimer 1 t).getD t else t

/-- Junk contents for the uninitialised `delays`/`maxNumRuns` arrays. -/
def junkD : Fin MAX_TIMERS → Int := fun _ => 0

/-- Junk contents for the uninitialised `toBeCalled` array. -/
def junkT : Fin MAX_TIMERS → Nat := fun _ => 0

/-- A freshly constructed timer set (clock at 0). -/
def sEmpty : SimpleTimer := init 0 junkD junkD junkT

/-- One timer registered: period 1, callback id 7, run limit 1, at tick 0
(occupies slot 0). -/
def sOne : SimpleTimer := (setTimer 1 7 1 0 sEmpty).2

/-- Two run-forever timers with period 1 registered at tick 0: callback
id 1 in slot 0 and callback id 2 in slot 1. -/
def sTwo : SimpleTimer := (setTimer 1 2 0 0 (setTimer 1 1 0 0 sEmpty).2).2

/-- All ten slots occupied by run-forever timers (callback ids 1..10). -/
def sFull : SimpleTimer :=
  (List.range MAX_TIMERS).foldl (fun t i => (setTimer 1 (i + 1) 0 0 t).2) sEmpty

/-- The poll-time sequence used by concrete witnesses: 0, 1, 2, 3, 4, 5,
5, 5, ... (monotone and bounded). -/
def uW : Nat → Nat := fun k => min k 5

/-- `sOne` with its slot 0 disabled. -/
def sDis : SimpleTimer := (disable 0 sOne).getD sEmpty

/-! ### Arithmetic facts about the unsigned wraparound operations -/

theorem toULong_coe (p : Nat) (hp : p < ULONG_MOD) : toULong ((p : Nat) : Int) = p := by
  unfold toULong
  simp only [ULONG_MOD] at *
  omega

theorem wsub_exact (a b : Nat) (hba : b ≤ a) (hw : a - b < ULONG_MOD) :
    wsub (a % ULONG_MOD) (b % ULONG_MOD) = a - b := by
  unfold wsub
  simp only [ULONG_MOD] at *
  omega

theorem wsub_lt (a b : Nat) (hba : b ≤ a) (hw : a - b < ULONG_MOD) (ha : a < ULONG_MOD) :
    wsub a b = a - b := by
  have h1 := wsub_exact a b hba hw
  rwa [Nat.mod_eq_of_lt ha, Nat.mod_eq_of_lt (by omega)] at h1

/-! ### Counting in-use slots -/

theorem inUseCountF_le (g : Fin MAX_TIMERS → Nat) : inUseCountF g ≤ MAX_TIMERS := by
  classical
  calc (Finset.univ.filter fun i => g i ≠ 0).card ≤ Finset.univ.card :=
        Finset.card_filter_le _ _
    _ = MAX_TIMERS := by simp

theorem inUseCountF_pos (g : Fin MAX_TIMERS → Nat) (j : Fin MAX_TIMERS) (h : g j ≠ 0) :
    1 ≤ inUseCountF g := by
  classical
  have hj : j ∈ Finset.univ.filter fun i => g i ≠ 0 := by simp [h]
  have := Finset.card_pos.mpr ⟨j, hj⟩
  exact this

theorem inUseCountF_update_nonzero (g : Fin MAX_TIMERS → Nat) (j : Fin MAX_TIMERS) (f : Nat)
    (h : g j = 0) (hf : f ≠ 0) :
    inUseCountF (Function.update g j f) = inUseCountF g + 1 := by
  classical
  unfold inUseCountF
  have hset : (Finset.univ.filter fun i => Function.update g j f i ≠ 0) =
      insert j (Finset.univ.filter fun i => g i ≠ 0) := by
    ext i
    by_cases hij : i = j
    · subst hij
      simp [Function.update_same, hf]
    · simp [Function.update_noteq hij, hij]
  rw [hset, Finset.card_insert_of_not_mem (by simp [h])]

theorem inUseCountF_update_zero (g : Fin MAX_TIMERS → Nat) (j : Fin MAX_TIMERS)
    (h : g j ≠ 0) :
    inUseCountF (Function.update g j 0) + 1 = inUseCountF g := by
  classical
  unfold inUseCountF
  have hset : (Finset.univ.filter fun i => Function.update g j (0 : Nat) i ≠ 0) =
      (Finset.univ.filter fun i => g i ≠ 0).erase j := by
    ext i
    by_cases hij : i = j
    · subst hij
      simp [Function.update_same]
    · simp [Function.update_noteq hij, hij]
  have hj : j ∈ Finset.univ.filter fun i => g i ≠ 0 := by simp [h]
  rw [hset, Finset.card_erase_of_mem hj]
  have := Finset.card_pos.mpr ⟨j, hj⟩
  omega

/-! ### Invariant preservation for the elementary steps -/

theorem phase1_inv (now : Nat) (s : SimpleTimer) (h : Inv s) : Inv (phase1 now s) := h

theorem deleteTimerCore_inv (i : Fin MAX_TIMERS) (s : SimpleTimer) (h : Inv s) :
    Inv (deleteTimerCore i s) := by
  unfold deleteTimerCore
  split
  · exact h
  · split
    · rename_i hnz hcb
      obtain ⟨h1, h2⟩ := h
      have hc := inUseCountF_update_zero s.callbacks i hcb
      unfold Inv
      unfold inUseCount at h1 ⊢
      dsimp only at h1 ⊢
      simp only [MAX_TIMERS] at h2 ⊢
      omega
    · exact h

theorem fireSlot_inv (cbSem : Nat → SimpleTimer → SimpleTimer)
    (hcbInv : ∀ c t, Inv t → Inv (cbSem c t)) (i : Fin MAX_TIMERS) (s : SimpleTimer)
    (h : Inv s) : Inv (fireSlot cbSem i s) := by
  unfold fireSlot
  split
  · exact hcbInv _ _ h
  · split
    · exact deleteTimerCore_inv _ _ (hcbInv _ _ h)
    · exact h

theorem phase2_inv (cbSem : Nat → SimpleTimer → SimpleTimer)
    (hcbInv : ∀ c t, Inv t → Inv (cbSem c t)) :
    ∀ (l : List (Fin MAX_TIMERS)) (s : SimpleTimer), Inv s → Inv (phase2 cbSem l s).1
  | [], s, h => h
  | i :: l, s, h => by
    unfold phase2
    split <;>
      exact phase2_inv cbSem hcbInv l (fireSlot cbSem i s) (fireSlot_inv cbSem hcbInv i s h)

theorem run_inv (cbSem : Nat → SimpleTimer → SimpleTimer)
    (hcbInv : ∀ c t, Inv t → Inv (cbSem c t)) (now : Nat) (s : SimpleTimer) (h : Inv s) :
    Inv (run cbSem now s).1 :=
  phase2_inv cbSem hcbInv _ _ (phase1_inv now s h)

/-! ### Slot-field preservation -/

theorem slotEq_refl (j : Fin MAX_TIMERS) (s : SimpleTimer) : SlotEq j s s :=
  ⟨rfl, rfl, rfl, rfl, rfl, rfl, rfl⟩

theorem slotEq_trans {j : Fin MAX_TIMERS} {s t u : SimpleTimer}
    (h1 : SlotEq j s t) (h2 : SlotEq j t u) : SlotEq j s u := by
  obtain ⟨a1, a2, a3, a4, a5, a6, a7⟩ := h1
  obtain ⟨b1, b2, b3, b4, b5, b6, b7⟩ := h2
  exact ⟨b1.trans a1, b2.trans a2, b3.trans a3, b4.trans a4, b5.trans a5, b6.trans a6,
    b7.trans a7⟩

theorem deleteTimerCore_slotEq (i j : Fin MAX_TIMERS) (hij : i ≠ j) (s : SimpleTimer) :
    SlotEq j s (deleteTimerCore i s) := by
  unfold deleteTimerCore
  split
  · exact slotEq_refl j s
  · split
    · exact ⟨rfl, Function.update_noteq (Ne.symm hij) _ _,
        Function.update_noteq (Ne.symm hij) _ _, rfl,
        Function.update_noteq (Ne.symm hij) _ _, Function.update_noteq (Ne.symm hij) _ _,
        Function.update_noteq (Ne.symm hij) _ _⟩
    · exact slotEq_refl j s

theorem fireSlot_slotEq (cbSem : Nat → SimpleTimer → SimpleTimer) (j : Fin MAX_TIMERS)
    (hcb : ∀ c t, SlotEq j t (cbSem c t)) (i : Fin MAX_TIMERS) (hij : i ≠ j)
    (s : SimpleTimer) : SlotEq j s (fireSlot cbSem i s) := by
  unfold fireSlot
  split
  · exact hcb _ _
  · split
    · exact slotEq_trans (hcb _ _) (deleteTimerCore_slotEq i j hij _)
    · exact slotEq_refl j s


/-! ### Behaviour of phase 2 on a single slot -/

theorem numTimers_ne_zero (s : SimpleTimer) (j : Fin MAX_TIMERS) (hInv : Inv s)
    (h : s.callbacks j ≠ 0) : s.numTimers ≠ 0 := by
  have hp := inUseCountF_pos s.callbacks j h
  obtain ⟨h1, _⟩ := hInv
  unfold inUseCount at h1
  omega

theorem phase2_count_le (cbSem : Nat → SimpleTimer → SimpleTimer) (j : Fin MAX_TIMERS) :
    ∀ (l : List (Fin MAX_TIMERS)) (s : SimpleTimer),
      (phase2 cbSem l s).2.count j ≤ l.count j
  | [], _ => le_refl _
  | i :: l, s => by
    have ih := phase2_count_le cbSem j l (fireSlot cbSem i s)
    simp only [phase2]
    split
    · simpa only [List.count_cons] using Nat.add_le_add_right ih _
    · exact le_trans ih (by simp only [List.count_cons]; exact Nat.le_add_right _ _)

theorem phase2_notMem (cbSem : Nat → SimpleTimer → SimpleTimer) (j : Fin MAX_TIMERS)
    (hcb : ∀ c t, SlotEq j t (cbSem c t)) :
    ∀ (l : List (Fin MAX_TIMERS)) (s : SimpleTimer), j ∉ l →
      SlotEq j s (phase2 cbSem l s).1 ∧ (phase2 cbSem l s).2.count j = 0
  | [], s, _ => ⟨slotEq_refl j s, rfl⟩
  | i :: l, s, hj => by
    have hij : i ≠ j := fun h => hj (h ▸ List.mem_cons_self i l)
    have hmem : j ∉ l := fun h => hj (List.mem_cons_of_mem i h)
    have ih := phase2_notMem cbSem j hcb l (fireSlot cbSem i s) hmem
    have hstep := fireSlot_slotEq cbSem j hcb i hij s
    simp only [phase2]
    split
    · exact ⟨slotEq_trans hstep ih.1, by simp [List.count_cons, hij, ih.2]⟩
    · exact ⟨slotEq_trans hstep ih.1, ih.2⟩

theorem phase2_mem_skip (cbSem : Nat → SimpleTimer → SimpleTimer) (j : Fin MAX_TIMERS)
    (hcb : ∀ c t, SlotEq j t (cbSem c t)) :
    ∀ (l : List (Fin MAX_TIMERS)) (s : SimpleTimer), l.Nodup → j ∈ l →
      s.toBeCalled j ≠ DEFCALL_RUNONLY → s.toBeCalled j ≠ DEFCALL_RUNANDDEL →
      SlotEq j s (phase2 cbSem l s).1 ∧ (phase2 cbSem l s).2.count j = 0
  | [], _, _, hj, _, _ => absurd hj (List.not_mem_nil j)
  | i :: l, s, hnd, hj, h1, h2 => by
    by_cases hij : i = j
    · subst hij
      have hnl : i ∉ l := (List.nodup_cons.mp hnd).1
      have hfs : fireSlot cbSem i s = s := by
        unfold fireSlot
        rw [if_neg h1, if_neg h2]
      simp only [phase2]
      rw [if_neg (by rintro (h | h) <;> [exact h1 h; exact h2 h])]
      rw [hfs]
      exact phase2_notMem cbSem i hcb l s hnl
    · have hmem : j ∈ l := (List.mem_cons.mp hj).resolve_left fun h => hij h.symm
      have hstep := fireSlot_slotEq cbSem j hcb i hij s
      have ih := phase2_mem_skip cbSem j hcb l (fireSlot cbSem i s)
        (List.nodup_cons.mp hnd).2 hmem
        (by rw [hstep.2.2.2.2.2.2]; exact h1) (by rw [hstep.2.2.2.2.2.2]; exact h2)
      simp only [phase2]
      split
      · exact ⟨slotEq_trans hstep ih.1, by simp [List.count_cons, hij, ih.2]⟩
      · exact ⟨slotEq_trans hstep ih.1, ih.2⟩

theorem phase2_mem_fire (cbSem : Nat → SimpleTimer → SimpleTimer) (j : Fin MAX_TIMERS)
    (hcb : ∀ c t, SlotEq j t (cbSem c t)) :
    ∀ (l : List (Fin MAX_TIMERS)) (s : SimpleTimer), l.Nodup → j ∈ l →
      s.toBeCalled j = DEFCALL_RUNONLY →
      SlotEq j s (phase2 cbSem l s).1 ∧ (phase2 cbSem l s).2.count j = 1
  | [], _, _, hj, _ => absurd hj (List.not_mem_nil j)
  | i :: l, s, hnd, hj, h1 => by
    by_cases hij : i = j
    · subst hij
      have hnl : i ∉ l := (List.nodup_cons.mp hnd).1
      have hfs : fireSlot cbSem i s = cbSem (s.callbacks i) s := by
        unfold fireSlot
        rw [if_pos h1]
      simp only [phase2]
      rw [if_pos (Or.inl h1), hfs]
      have ih := phase2_notMem cbSem i hcb l (cbSem (s.callbacks i) s) hnl
      refine ⟨slotEq_trans (hcb _ _) ih.1, ?_⟩
      simp [List.count_cons, ih.2]
    · have hmem : j ∈ l := (List.mem_cons.mp hj).resolve_left fun h => hij h.symm
      have hstep := fireSlot_slotEq cbSem j hcb i hij s
      have ih := phase2_mem_fire cbSem j hcb l (fireSlot cbSem i s)
        (List.nodup_cons.mp hnd).2 hmem (by rw [hstep.2.2.2.2.2.2]; exact h1)
      simp only [phase2]
      split
      · exact ⟨slotEq_trans hstep ih.1, by simp [List.count_cons, hij, ih.2]⟩
      · exact ⟨slotEq_trans hstep ih.1, ih.2⟩

theorem phase2_mem_fireDel (cbSem : Nat → SimpleTimer → SimpleTimer) (j : Fin MAX_TIMERS)
    (hcb : ∀ c t, SlotEq j t (cbSem c t)) (hcbInv : ∀ c t, Inv t → Inv (cbSem c t)) :
    ∀ (l : List (Fin MAX_TIMERS)) (s : SimpleTimer), l.Nodup → j ∈ l → Inv s →
      s.toBeCalled j = DEFCALL_RUNANDDEL → s.callbacks j ≠ 0 →
      (phase2 cbSem l s).1.callbacks j = 0 ∧ (phase2 cbSem l s).1.numRuns j = 0 ∧
      (phase2 cbSem l s).1.enabled j = false ∧ (phase2 cbSem l s).1.toBeCalled j = 0 ∧
      (phase2 cbSem l s).1.delays j = 0 ∧
      (phase2 cbSem l s).1.prev_millis j = s.prev_millis j ∧
      (phase2 cbSem l s).1.maxNumRuns j = s.maxNumRuns j ∧
      (phase2 cbSem l s).2.count j = 1
  | [], _, _, hj, _, _, _ => absurd hj (List.not_mem_nil j)
  | i :: l, s, hnd, hj, hInv, h2, hc => by
    by_cases hij : i = j
    · subst hij
      have hnl : i ∉ l := (List.nodup_cons.mp hnd).1
      have hcbeq := hcb (s.callbacks i) s
      have hInv1 : Inv (cbSem (s.callbacks i) s) := hcbInv _ _ hInv
      have hc1 : (cbSem (s.callbacks i) s).callbacks i ≠ 0 := by
        rw [hcbeq.2.1]; exact hc
      have hnz : (cbSem (s.callbacks i) s).numTimers ≠ 0 :=
        numTimers_ne_zero _ i hInv1 hc1
      have hdel :
          deleteTimerCore i (cbSem (s.callbacks i) s) =
            { cbSem (s.callbacks i) s with
              callbacks := Function.update (cbSem (s.callbacks i) s).callbacks i 0
              enabled := Function.update (cbSem (s.callbacks i) s).enabled i false
              toBeCalled :=
                Function.update (cbSem (s.callbacks i) s).toBeCalled i DEFCALL_DONTRUN
              delays := Function.update (cbSem (s.callbacks i) s).delays i 0
              numRuns := Function.update (cbSem (s.callbacks i) s).numRuns i 0
              numTimers := (cbSem (s.callbacks i) s).numTimers - 1 } := by
        unfold deleteTimerCore
        rw [if_neg hnz, if_pos hc1]
      have hfs : fireSlot cbSem i s = deleteTimerCore i (cbSem (s.callbacks i) s) := by
        unfold fireSlot
        rw [if_neg (by rw [h2]; decide), if_pos h2]
      simp only [phase2]
      rw [if_pos (Or.inr h2), hfs]
      have ih := phase2_notMem cbSem i hcb l
        (deleteTimerCore i (cbSem (s.callbacks i) s)) hnl
      obtain ⟨e1, e2, e3, e4, e5, e6, e7⟩ := ih.1
      refine ⟨?_, ?_, ?_, ?_, ?_, ?_, ?_, ?_⟩
      · rw [e2, hdel]; exact Function.update_same _ _ _
      · rw [e5, hdel]; exact Function.update_same _ _ _
      · rw [e6, hdel]; exact Function.update_same _ _ _
      · rw [e7, hdel]; exact Function.update_same _ _ _
      · rw [e3, hdel]; exact Function.update_same _ _ _
      · rw [e1, hdel]; exact hcbeq.1
      · rw [e4, hdel]; exact hcbeq.2.2.2.1
      · simp [List.count_cons, ih.2]
    · have hmem : j ∈ l := (List.mem_cons.mp hj).resolve_left fun h => hij h.symm
      have hstep := fireSlot_slotEq cbSem j hcb i hij s
      have hInv1 : Inv (fireSlot cbSem i s) := fireSlot_inv cbSem hcbInv i s hInv
      have ih := phase2_mem_fireDel cbSem j hcb hcbInv l (fireSlot cbSem i s)
        (List.nodup_cons.mp hnd).2 hmem hInv1 (by rw [hstep.2.2.2.2.2.2]; exact h2)
        (by rw [hstep.2.1]; exact hc)
      simp only [phase2]
      split
      · refine ⟨ih.1, ih.2.1, ih.2.2.1, ih.2.2.2.1, ih.2.2.2.2.1, ?_, ?_, ?_⟩
        · rw [ih.2.2.2.2.2.1, hstep.1]
        · rw [ih.2.2.2.2.2.2.1, hstep.2.2.2.1]
        · simp [List.count_cons, hij, ih.2.2.2.2.2.2.2]
      · refine ⟨ih.1, ih.2.1, ih.2.2.1, ih.2.2.2.1, ih.2.2.2.2.1, ?_, ?_,
          ih.2.2.2.2.2.2.2⟩
        · rw [ih.2.2.2.2.2.1, hstep.1]
        · rw [ih.2.2.2.2.2.2.1, hstep.2.2.2.1]


/-! ### Behaviour of a whole `run()` call on a single slot -/

theorem phase1_callbacks (now : Nat) (s : SimpleTimer) :
    (phase1 now s).callbacks = s.callbacks := rfl

theorem phase1_numTimers (now : Nat) (s : SimpleTimer) :
    (phase1 now s).numTimers = s.numTimers := rfl

theorem phase1_delays (now : Nat) (s : SimpleTimer) : (phase1 now s).delays = s.delays := rfl

theorem phase1_maxNumRuns (now : Nat) (s : SimpleTimer) :
    (phase1 now s).maxNumRuns = s.maxNumRuns := rfl

theorem phase1_enabled (now : Nat) (s : SimpleTimer) :
    (phase1 now s).enabled = s.enabled := rfl

theorem phase1_toBeCalled (now : Nat) (s : SimpleTimer) (j : Fin MAX_TIMERS) :
    (phase1 now s).toBeCalled j = decideAction now s j := rfl

theorem decideAction_ne_zero (now : Nat) (s : SimpleTimer) (j : Fin MAX_TIMERS)
    (h : decideAction now s j ≠ DEFCALL_DONTRUN) : dueP now s j ∧ s.enabled j = true := by
  by_cases hd : dueP now s j
  · refine ⟨hd, ?_⟩
    by_cases he : s.enabled j = true
    · exact he
    · exact absurd (by unfold decideAction; rw [if_pos hd, if_neg he]) h
  · exact absurd (by unfold decideAction; rw [if_neg hd]) h

theorem run_skip (cbSem : Nat → SimpleTimer → SimpleTimer) (j : Fin MAX_TIMERS)
    (hcb : ∀ c t, SlotEq j t (cbSem c t)) (now : Nat) (s : SimpleTimer)
    (ha1 : decideAction now s j ≠ DEFCALL_RUNONLY)
    (ha2 : decideAction now s j ≠ DEFCALL_RUNANDDEL) :
    SlotEq j (phase1 now s) (run cbSem now s).1 ∧ (run cbSem now s).2.count j = 0 :=
  phase2_mem_skip cbSem j hcb (List.finRange MAX_TIMERS) (phase1 now s)
    (List.nodup_finRange _) (List.mem_finRange j) ha1 ha2

theorem run_fire (cbSem : Nat → SimpleTimer → SimpleTimer) (j : Fin MAX_TIMERS)
    (hcb : ∀ c t, SlotEq j t (cbSem c t)) (now : Nat) (s : SimpleTimer)
    (ha : decideAction now s j = DEFCALL_RUNONLY) :
    SlotEq j (phase1 now s) (run cbSem now s).1 ∧ (run cbSem now s).2.count j = 1 :=
  phase2_mem_fire cbSem j hcb (List.finRange MAX_TIMERS) (phase1 now s)
    (List.nodup_finRange _) (List.mem_finRange j) ha

theorem run_fireDel (cbSem : Nat → SimpleTimer → SimpleTimer) (j : Fin MAX_TIMERS)
    (hcb : ∀ c t, SlotEq j t (cbSem c t)) (hcbInv : ∀ c t, Inv t → Inv (cbSem c t))
    (now : Nat) (s : SimpleTimer) (hInv : Inv s)
    (ha : decideAction now s j = DEFCALL_RUNANDDEL) :
    (run cbSem now s).1.callbacks j = 0 ∧ (run cbSem now s).1.numRuns j = 0 ∧
    (run cbSem now s).1.enabled j = false ∧ (run cbSem now s).1.toBeCalled j = 0 ∧
    (run cbSem now s).1.delays j = 0 ∧
    (run cbSem now s).1.prev_millis j = (phase1 now s).prev_millis j ∧
    (run cbSem now s).1.maxNumRuns j = s.maxNumRuns j ∧
    (run cbSem now s).2.count j = 1 := by
  have hdue : dueP now s j :=
    (decideAction_ne_zero now s j (by rw [ha]; decide)).1
  exact phase2_mem_fireDel cbSem j hcb hcbInv (List.finRange MAX_TIMERS) (phase1 now s)
    (List.nodup_finRange _) (List.mem_finRange j) (phase1_inv now s hInv) ha hdue.1

theorem dueP_cfg (now : Nat) (s : SimpleTimer) (j : Fin MAX_TIMERS) (c : Nat) (p : Nat)
    (n r : Int) (b : Nat) (hcfg : SlotCfg s j c p n r b) (hc : c ≠ 0) (hp : p < ULONG_MOD) :
    dueP now s j ↔ p ≤ wsub now b := by
  obtain ⟨h1, h2, _, _, _, h6⟩ := hcfg
  unfold dueP
  rw [h1, h2, h6, toULong_coe p hp]
  simp [hc]

theorem decideAction_cfg (now : Nat) (s : SimpleTimer) (j : Fin MAX_TIMERS) (c : Nat)
    (p : Nat) (n r : Int) (b : Nat) (hcfg : SlotCfg s j c p n r b) (hc : c ≠ 0)
    (hp : p < ULONG_MOD) :
    decideAction now s j =
      if p ≤ wsub now b then
        if n = 0 then DEFCALL_RUNONLY
        else if r < n then
          if n ≤ r + 1 then DEFCALL_RUNANDDEL else DEFCALL_RUNONLY
        else DEFCALL_DONTRUN
      else DEFCALL_DONTRUN := by
  have hdue := dueP_cfg now s j c p n r b hcfg hc hp
  obtain ⟨h1, h2, h3, h4, h5, h6⟩ := hcfg
  unfold decideAction
  by_cases hd : p ≤ wsub now b
  · rw [if_pos (hdue.mpr hd), if_pos hd, h5, h3, h4]
    rfl
  · rw [if_neg (fun hh => hd (hdue.mp hh)), if_neg hd]

theorem phase1_cfg_prev (now : Nat) (s : SimpleTimer) (j : Fin MAX_TIMERS) (c : Nat)
    (p : Nat) (n r : Int) (b : Nat) (hcfg : SlotCfg s j c p n r b) (hc : c ≠ 0)
    (hp : p < ULONG_MOD) :
    (phase1 now s).prev_millis j =
      if p ≤ wsub now b then (b + p) % ULONG_MOD else b := by
  have hdue := dueP_cfg now s j c p n r b hcfg hc hp
  obtain ⟨h1, h2, h3, h4, h5, h6⟩ := hcfg
  show (if dueP now s j then (s.prev_millis j + toULong (s.delays j)) % ULONG_MOD
      else s.prev_millis j) = _
  by_cases hd : p ≤ wsub now b
  · rw [if_pos (hdue.mpr hd), if_pos hd, h2, h6, toULong_coe p hp]
  · rw [if_neg (fun hh => hd (hdue.mp hh)), if_neg hd, h6]

theorem phase1_cfg_numRuns (now : Nat) (s : SimpleTimer) (j : Fin MAX_TIMERS) (c : Nat)
    (p : Nat) (n r : Int) (b : Nat) (hcfg : SlotCfg s j c p n r b) (hc : c ≠ 0)
    (hp : p < ULONG_MOD) :
    (phase1 now s).numRuns j =
      if p ≤ wsub now b ∧ n ≠ 0 ∧ r < n then r + 1 else r := by
  have hdue := dueP_cfg now s j c p n r b hcfg hc hp
  obtain ⟨h1, h2, h3, h4, h5, h6⟩ := hcfg
  show (if dueP now s j ∧ s.enabled j = true ∧ s.maxNumRuns j ≠ RUN_FOREVER ∧
      s.numRuns j < s.maxNumRuns j then s.numRuns j + 1 else s.numRuns j) = _
  rw [h3, h4, h5]
  by_cases hcond : p ≤ wsub now b ∧ n ≠ 0 ∧ r < n
  · rw [if_pos ⟨hdue.mpr hcond.1, rfl, hcond.2.1, hcond.2.2⟩, if_pos hcond]
  · rw [if_neg ?_, if_neg hcond]
    rintro ⟨hh1, _, hh3, hh4⟩
    exact hcond ⟨hdue.mp hh1, hh3, hh4⟩


theorem run_cfg (cbSem : Nat → SimpleTimer → SimpleTimer) (j : Fin MAX_TIMERS)
    (hcb : ∀ c t, SlotEq j t (cbSem c t)) (hcbInv : ∀ c t, Inv t → Inv (cbSem c t))
    (now : Nat) (s : SimpleTimer) (c : Nat) (p : Nat) (n r : Int) (b : Nat)
    (hInv : Inv s) (hcfg : SlotCfg s j c p n r b) (hc : c ≠ 0) (hp : p < ULONG_MOD) :
    Inv (run cbSem now s).1 ∧
    (¬ p ≤ wsub now b →
      SlotCfg (run cbSem now s).1 j c p n r b ∧ (run cbSem now s).2.count j = 0) ∧
    (p ≤ wsub now b → n = 0 →
      SlotCfg (run cbSem now s).1 j c p 0 r ((b + p) % ULONG_MOD) ∧
      (run cbSem now s).2.count j = 1) ∧
    (p ≤ wsub now b → n ≠ 0 → r < n → r + 1 < n →
      SlotCfg (run cbSem now s).1 j c p n (r + 1) ((b + p) % ULONG_MOD) ∧
      (run cbSem now s).2.count j = 1) ∧
    (p ≤ wsub now b → n ≠ 0 → r < n → ¬ r + 1 < n →
      (run cbSem now s).1.callbacks j = 0 ∧ (run cbSem now s).1.numRuns j = 0 ∧
      (run cbSem now s).1.enabled j = false ∧
      (run cbSem now s).1.prev_millis j = (b + p) % ULONG_MOD ∧
      (run cbSem now s).2.count j = 1) ∧
    (p ≤ wsub now b → n ≠ 0 → ¬ r < n →
      SlotCfg (run cbSem now s).1 j c p n r ((b + p) % ULONG_MOD) ∧
      (run cbSem now s).2.count j = 0) := by
  have hda := decideAction_cfg now s j c p n r b hcfg hc hp
  have hpr := phase1_cfg_prev now s j c p n r b hcfg hc hp
  have hnr := phase1_cfg_numRuns now s j c p n r b hcfg hc hp
  refine ⟨run_inv cbSem hcbInv now s hInv, ?_, ?_, ?_, ?_, ?_⟩
  · intro hdue
    have ha : decideAction now s j = DEFCALL_DONTRUN := by rw [hda, if_neg hdue]
    obtain ⟨heq, hcnt⟩ := run_skip cbSem j hcb now s (by rw [ha]; decide) (by rw [ha]; decide)
    have hnr0 : (phase1 now s).numRuns j = r := by
      rw [hnr, if_neg (fun hh => hdue hh.1)]
    have hpr0 : (phase1 now s).prev_millis j = b := by rw [hpr, if_neg hdue]
    exact ⟨⟨heq.2.1.trans hcfg.1, heq.2.2.1.trans hcfg.2.1, heq.2.2.2.1.trans hcfg.2.2.1,
      heq.2.2.2.2.1.trans hnr0, heq.2.2.2.2.2.1.trans hcfg.2.2.2.2.1,
      heq.1.trans hpr0⟩, hcnt⟩
  · intro hdue hn0
    have ha : decideAction now s j = DEFCALL_RUNONLY := by
      rw [hda, if_pos hdue, if_pos hn0]
    obtain ⟨heq, hcnt⟩ := run_fire cbSem j hcb now s ha
    have hnr0 : (phase1 now s).numRuns j = r := by
      rw [hnr, if_neg (fun hh => hh.2.1 hn0)]
    have hpr0 : (phase1 now s).prev_millis j = (b + p) % ULONG_MOD := by
      rw [hpr, if_pos hdue]
    refine ⟨⟨heq.2.1.trans hcfg.1, heq.2.2.1.trans hcfg.2.1,
      heq.2.2.2.1.trans (hcfg.2.2.1.trans hn0), heq.2.2.2.2.1.trans hnr0,
      heq.2.2.2.2.2.1.trans hcfg.2.2.2.2.1, heq.1.trans hpr0⟩, hcnt⟩
  · intro hdue hn0 hrn hr1
    have ha : decideAction now s j = DEFCALL_RUNONLY := by
      rw [hda, if_pos hdue, if_neg hn0, if_pos hrn, if_neg (by omega)]
    obtain ⟨heq, hcnt⟩ := run_fire cbSem j hcb now s ha
    have hnr0 : (phase1 now s).numRuns j = r + 1 := by
      rw [hnr, if_pos ⟨hdue, hn0, hrn⟩]
    have hpr0 : (phase1 now s).prev_millis j = (b + p) % ULONG_MOD := by
      rw [hpr, if_pos hdue]
    exact ⟨⟨heq.2.1.trans hcfg.1, heq.2.2.1.trans hcfg.2.1, heq.2.2.2.1.trans hcfg.2.2.1,
      heq.2.2.2.2.1.trans hnr0, heq.2.2.2.2.2.1.trans hcfg.2.2.2.2.1,
      heq.1.trans hpr0⟩, hcnt⟩
  · intro hdue hn0 hrn hr1
    have ha : decideAction now s j = DEFCALL_RUNANDDEL := by
      rw [hda, if_pos hdue, if_neg hn0, if_pos hrn, if_pos (by omega)]
    obtain ⟨e1, e2, e3, _, _, e6, _, hcnt⟩ := run_fireDel cbSem j hcb hcbInv now s hInv ha
    have hpr0 : (phase1 now s).prev_millis j = (b + p) % ULONG_MOD := by
      rw [hpr, if_pos hdue]
    exact ⟨e1, e2, e3, e6.trans hpr0, hcnt⟩
  · intro hdue hn0 hrn
    have ha : decideAction now s j = DEFCALL_DONTRUN := by
      rw [hda, if_pos hdue, if_neg hn0, if_neg hrn]
    obtain ⟨heq, hcnt⟩ := run_skip cbSem j hcb now s (by rw [ha]; decide) (by rw [ha]; decide)
    have hnr0 : (phase1 now s).numRuns j = r := by
      rw [hnr, if_neg (fun hh => hrn hh.2.2)]
    have hpr0 : (phase1 now s).prev_millis j = (b + p) % ULONG_MOD := by
      rw [hpr, if_pos hdue]
    exact ⟨⟨heq.2.1.trans hcfg.1, heq.2.2.1.trans hcfg.2.1, heq.2.2.2.1.trans hcfg.2.2.1,
      heq.2.2.2.2.1.trans hnr0, heq.2.2.2.2.2.1.trans hcfg.2.2.2.2.1,
      heq.1.trans hpr0⟩, hcnt⟩


/-! ### Behaviour of sequences of `run()` calls on a single slot -/

theorem pure_slotEq (cbSem : Nat → SimpleTimer → SimpleTimer)
    (hpure : ∀ c t, cbSem c t = t) (j : Fin MAX_TIMERS) :
    ∀ c t, SlotEq j t (cbSem c t) := fun c t => by
  rw [hpure]
  exact slotEq_refl j t

theorem pure_inv (cbSem : Nat → SimpleTimer → SimpleTimer)
    (hpure : ∀ c t, cbSem c t = t) : ∀ c t, Inv t → Inv (cbSem c t) := fun c t h => by
  rw [hpure]
  exact h

theorem decideAction_free (now : Nat) (s : SimpleTimer) (j : Fin MAX_TIMERS)
    (hfree : s.callbacks j = 0) : decideAction now s j = DEFCALL_DONTRUN := by
  unfold decideAction
  rw [if_neg (fun hd => hd.1 hfree)]

theorem runSeq_free (cbSem : Nat → SimpleTimer → SimpleTimer) (j : Fin MAX_TIMERS)
    (hcb : ∀ c t, SlotEq j t (cbSem c t)) (hcbInv : ∀ c t, Inv t → Inv (cbSem c t)) :
    ∀ (ts : List Nat) (s : SimpleTimer), Inv s → s.callbacks j = 0 →
      Inv (runSeq cbSem ts s).1 ∧ (runSeq cbSem ts s).1.callbacks j = 0 ∧
      (runSeq cbSem ts s).2.count j = 0
  | [], s, hInv, hfree => ⟨hInv, hfree, rfl⟩
  | t :: ts, s, hInv, hfree => by
    have ha := decideAction_free t s j hfree
    obtain ⟨heq, hcnt⟩ := run_skip cbSem j hcb t s (by rw [ha]; decide) (by rw [ha]; decide)
    have hfree2 : (run cbSem t s).1.callbacks j = 0 := heq.2.1.trans hfree
    have hInv2 : Inv (run cbSem t s).1 := run_inv cbSem hcbInv t s hInv
    have ih := runSeq_free cbSem j hcb hcbInv ts (run cbSem t s).1 hInv2 hfree2
    simp only [runSeq]
    exact ⟨ih.1, ih.2.1, by simp [List.count_append, hcnt, ih.2.2]⟩

theorem runSeq_bounded (cbSem : Nat → SimpleTimer → SimpleTimer) (j : Fin MAX_TIMERS)
    (hcb : ∀ c t, SlotEq j t (cbSem c t)) (hcbInv : ∀ c t, Inv t → Inv (cbSem c t))
    (c : Nat) (p n t0 : Nat) (hc : c ≠ 0) (hn : 0 < n)
    (hM : t0 + n * p < ULONG_MOD) :
    ∀ (ts : List Nat) (r : Nat) (s : SimpleTimer), Inv s → r < n →
      SlotCfg s j c p (n : Int) (r : Int) (t0 + r * p) →
      (∀ t ∈ ts, t < ULONG_MOD) → (∀ t ∈ ts, t0 + r * p ≤ t) → ts.Sorted (· ≤ ·) →
      Inv (runSeq cbSem ts s).1 ∧
      (runSeq cbSem ts s).2.count j + r ≤ n ∧
      (n ≤ r + (ts.filter (fun t => t0 + n * p ≤ t)).length →
        (runSeq cbSem ts s).2.count j + r = n ∧ (runSeq cbSem ts s).1.callbacks j = 0)
  | [], r, s, hInv, hrn, _, _, _, _ => by
    refine ⟨hInv, by simp only [runSeq, List.count_nil]; omega, ?_⟩
    intro hlive
    simp only [List.filter_nil, List.length_nil] at hlive
    omega
  | t :: ts, r, s, hInv, hrn, hcfg, hlt, hge, hsort => by
    have hp : p < ULONG_MOD := by
      have : p ≤ n * p := Nat.le_mul_of_pos_left p hn
      omega
    have hrp : r * p ≤ n * p := Nat.mul_le_mul_right p (le_of_lt hrn)
    have hr1p : (r + 1) * p ≤ n * p := Nat.mul_le_mul_right p hrn
    have hmul : (r + 1) * p = r * p + p := by ring
    have ht_lt : t < ULONG_MOD := hlt t (List.mem_cons_self t ts)
    have hbt : t0 + r * p ≤ t := hge t (List.mem_cons_self t ts)
    have hwt : wsub t (t0 + r * p) = t - (t0 + r * p) :=
      wsub_lt t (t0 + r * p) hbt (by omega) ht_lt
    have hsort2 := List.sorted_cons.mp hsort
    obtain ⟨hInvR, hskip, hfire0, hfire1, hfire2, hstuck⟩ :=
      run_cfg cbSem j hcb hcbInv t s c p (n : Int) (r : Int) (t0 + r * p) hInv hcfg hc hp
    have hn0 : (n : Int) ≠ 0 := by exact_mod_cast Nat.pos_iff_ne_zero.mp hn
    have hrnI : (r : Int) < (n : Int) := by exact_mod_cast hrn
    by_cases hfire : t0 + (r + 1) * p ≤ t
    · have hdue : p ≤ wsub t (t0 + r * p) := by rw [hwt]; omega
      by_cases hr1 : r + 1 < n
      · have hr1I : (r : Int) + 1 < (n : Int) := by exact_mod_cast hr1
        obtain ⟨hcfg2, hcnt1⟩ := hfire1 hdue hn0 hrnI hr1I
        have hlt2 : t0 + r * p + p < ULONG_MOD := by omega
        have hmod : (t0 + r * p + p) % ULONG_MOD = t0 + (r + 1) * p := by
          rw [Nat.mod_eq_of_lt hlt2, hmul]
          omega
        have hcfg3 : SlotCfg (run cbSem t s).1 j c p (n : Int) ((r + 1 : Nat) : Int)
            (t0 + (r + 1) * p) := by
          rw [← hmod]
          exact hcfg2
        have ih := runSeq_bounded cbSem j hcb hcbInv c p n t0 hc hn hM ts (r + 1)
          (run cbSem t s).1 hInvR hr1 hcfg3
          (fun u hu => hlt u (List.mem_cons_of_mem t hu))
          (fun u hu => le_trans hfire (hsort2.1 u hu)) hsort2.2
        simp only [runSeq, List.count_append]
        refine ⟨ih.1, by omega, ?_⟩
        intro hlive
        have hfl : ((t :: ts).filter (fun u => t0 + n * p ≤ u)).length ≤
            (ts.filter (fun u => t0 + n * p ≤ u)).length + 1 := by
          rw [List.filter_cons]
          split
          · simp
          · simp
        have ih3 := ih.2.2 (by omega)
        refine ⟨by omega, ih3.2⟩
      · have hr1I : ¬ (r : Int) + 1 < (n : Int) := by
          intro hh
          exact hr1 (by exact_mod_cast hh)
        obtain ⟨e1, e2, e3, e4, hcnt1⟩ := hfire2 hdue hn0 hrnI hr1I
        have ihf := runSeq_free cbSem j hcb hcbInv ts (run cbSem t s).1 hInvR e1
        simp only [runSeq, List.count_append]
        refine ⟨ihf.1, by omega, fun _ => ⟨by omega, ihf.2.1⟩⟩
    · have hnotdue : ¬ p ≤ wsub t (t0 + r * p) := by rw [hwt]; omega
      obtain ⟨hcfg2, hcnt1⟩ := hskip hnotdue
      have ih := runSeq_bounded cbSem j hcb hcbInv c p n t0 hc hn hM ts r
        (run cbSem t s).1 hInvR hrn hcfg2
        (fun u hu => hlt u (List.mem_cons_of_mem t hu))
        (fun u hu => hge u (List.mem_cons_of_mem t hu)) hsort2.2
      simp only [runSeq, List.count_append]
      refine ⟨ih.1, by omega, ?_⟩
      intro hlive
      have hpredt : ¬ t0 + n * p ≤ t := by omega
      have hfl : (t :: ts).filter (fun u => t0 + n * p ≤ u) =
          ts.filter (fun u => t0 + n * p ≤ u) := by
        rw [List.filter_cons, if_neg (by simpa using hpredt)]
      rw [hfl] at hlive
      have ih3 := ih.2.2 hlive
      exact ⟨by omega, ih3.2⟩


theorem countP_range_tail (q : Nat → Bool) (K0 : Nat) (hq : ∀ i, K0 ≤ i → q i = true) :
    ∀ k, k - K0 ≤ (List.range k).countP q
  | 0 => by simp
  | k + 1 => by
    have ih := countP_range_tail q K0 hq k
    rw [List.range_succ, List.countP_append]
    by_cases hk : K0 ≤ k
    · have hqk : q k = true := hq k hk
      simp [List.countP_cons, List.countP_nil, hqk]
      omega
    · omega

/-- C2: a slot registered with period `p ≥ 0`, run limit `n > 0` and
baseline `t0` fires its callback exactly `n` times in total over an
unbounded monotone sequence of `run()` calls that eventually passes
`t0 + n·p`, and once the `n`-th fire has happened the slot is free
(auto-deleted): the fire count never exceeds `n`, and from poll number
`K0 + n` on it equals `n` with the slot's callback pointer cleared.
(`u k` is the clock value of the `k`-th poll; callbacks are pure; all
clock values stay below one wraparound period.) -/
theorem C2_bounded_timer_fires_exactly_n (cbSem : Nat → SimpleTimer → SimpleTimer)
    (hpure : ∀ c t, cbSem c t = t) (u : Nat → Nat) (hmono : Monotone u)
    (hu : ∀ k, u k < ULONG_MOD) (s : SimpleTimer) (j : Fin MAX_TIMERS)
    (c p n t0 K0 : Nat) (hInv : Inv s) (hcfg : SlotCfg s j c p (n : Int) 0 t0)
    (hc : c ≠ 0) (hn : 0 < n) (hM : t0 + n * p < ULONG_MOD) (ht0 : t0 ≤ u 0)
    (hK0 : t0 + n * p ≤ u K0) :
    (∀ k, (runSeq cbSem ((List.range k).map u) s).2.count j ≤ n) ∧
    (∀ k, K0 + n ≤ k →
      (runSeq cbSem ((List.range k).map u) s).2.count j = n ∧
      (runSeq cbSem ((List.range k).map u) s).1.callbacks j = 0) := by
  have hcb := pure_slotEq cbSem hpure j
  have hcbInv := pure_inv cbSem hpure
  have hcfg0 : SlotCfg s j c p (n : Int) ((0 : Nat) : Int) (t0 + 0 * p) := by
    simpa using hcfg
  have H : ∀ k,
      Inv (runSeq cbSem ((List.range k).map u) s).1 ∧
      (runSeq cbSem ((List.range k).map u) s).2.count j + 0 ≤ n ∧
      (n ≤ 0 + (((List.range k).map u).filter (fun t => t0 + n * p ≤ t)).length →
        (runSeq cbSem ((List.range k).map u) s).2.count j + 0 = n ∧
        (runSeq cbSem ((List.range k).map u) s).1.callbacks j = 0) := by
    intro k
    refine runSeq_bounded cbSem j hcb hcbInv c p n t0 hc hn hM ((List.range k).map u) 0 s
      hInv hn hcfg0 ?_ ?_ ?_
    · intro t ht
      obtain ⟨i, _, rfl⟩ := List.mem_map.mp ht
      exact hu i
    · intro t ht
      obtain ⟨i, _, rfl⟩ := List.mem_map.mp ht
      simpa using le_trans ht0 (hmono (Nat.zero_le i))
    · exact List.pairwise_map.mpr
        ((List.pairwise_lt_range k).imp (fun h => hmono (le_of_lt h)))
  refine ⟨fun k => by have h := (H k).2.1; omega, fun k hk => ?_⟩
  have hlen : n ≤ (((List.range k).map u).filter (fun t => t0 + n * p ≤ t)).length := by
    rw [← List.countP_eq_length_filter, List.countP_map]
    have hq : ∀ i, K0 ≤ i → ((fun t => decide (t0 + n * p ≤ t)) ∘ u) i = true := by
      intro i hi
      exact decide_eq_true (le_trans hK0 (hmono hi))
    have := countP_range_tail (((fun t => decide (t0 + n * p ≤ t)) ∘ u)) K0 hq k
    omega
  have h := (H k).2.2 (by omega)
  exact ⟨by omega, h.2⟩


/-! ### Registration: the free-slot scan and `setTimer` -/

theorem findFreeAux_some (s : SimpleTimer) :
    ∀ (fuel k : Nat) (j : Fin MAX_TIMERS), findFreeAux s fuel k = some j →
      s.callbacks j = 0 ∧ k ≤ (j : Nat) ∧
      ∀ i : Fin MAX_TIMERS, k ≤ (i : Nat) → (i : Nat) < (j : Nat) → s.callbacks i ≠ 0
  | 0, k, j, h => by simp [findFreeAux] at h
  | fuel + 1, k, j, h => by
    unfold findFreeAux at h
    by_cases hk : k < MAX_TIMERS
    · rw [dif_pos hk] at h
      by_cases hck : s.callbacks ⟨k, hk⟩ = 0
      · rw [if_pos hck] at h
        injection h with h
        subst h
        exact ⟨hck, le_refl _, fun i hki hik => absurd (lt_of_le_of_lt hki hik)
          (lt_irrefl _)⟩
      · rw [if_neg hck] at h
        obtain ⟨h1, h2, h3⟩ := findFreeAux_some s fuel (k + 1) j h
        refine ⟨h1, by omega, fun i hki hij => ?_⟩
        by_cases hik : (i : Nat) = k
        · have hi : i = ⟨k, hk⟩ := Fin.ext hik
          rw [hi]
          exact hck
        · exact h3 i (by omega) hij
    · rw [dif_neg hk] at h
      exact absurd h (by simp)

theorem findFreeAux_isSome (s : SimpleTimer) :
    ∀ (fuel k : Nat), (∃ i : Fin MAX_TIMERS, k ≤ (i : Nat) ∧ s.callbacks i = 0) →
      MAX_TIMERS ≤ fuel + k → ∃ j, findFreeAux s fuel k = some j
  | 0, k, ⟨i, hki, _⟩, hfk => by
    exfalso
    have := i.isLt
    omega
  | fuel + 1, k, ⟨i, hki, hci⟩, hfk => by
    unfold findFreeAux
    have hk : k < MAX_TIMERS := by
      have := i.isLt
      omega
    rw [dif_pos hk]
    by_cases hck : s.callbacks ⟨k, hk⟩ = 0
    · rw [if_pos hck]
      exact ⟨_, rfl⟩
    · rw [if_neg hck]
      refine findFreeAux_isSome s fuel (k + 1) ⟨i, ?_, hci⟩ (by omega)
      by_cases hik : (i : Nat) = k
      · exact absurd ((Fin.ext hik : i = ⟨k, hk⟩) ▸ hci) hck
      · omega

theorem findFirstFreeSlot_some (s : SimpleTimer) (j : Fin MAX_TIMERS)
    (h : findFirstFreeSlot s = some j) :
    s.numTimers < (MAX_TIMERS : Int) ∧ s.callbacks j = 0 ∧
    ∀ i : Fin MAX_TIMERS, (i : Nat) < (j : Nat) → s.callbacks i ≠ 0 := by
  unfold findFirstFreeSlot at h
  by_cases hn : (MAX_TIMERS : Int) ≤ s.numTimers
  · rw [if_pos hn] at h
    exact absurd h (by simp)
  · rw [if_neg hn] at h
    obtain ⟨h1, _, h3⟩ := findFreeAux_some s MAX_TIMERS 0 j h
    exact ⟨by omega, h1, fun i hij => h3 i (Nat.zero_le _) hij⟩

theorem findFirstFreeSlot_of_free (s : SimpleTimer) (hInv : Inv s) (j0 : Fin MAX_TIMERS)
    (hfree : s.callbacks j0 = 0) : ∃ j, findFirstFreeSlot s = some j := by
  unfold findFirstFreeSlot
  have hne : (Finset.univ.filter fun i => s.callbacks i ≠ 0) ≠ Finset.univ := by
    intro hh
    have hmem : j0 ∈ Finset.univ.filter fun i => s.callbacks i ≠ 0 := by
      rw [hh]
      exact Finset.mem_univ j0
    simp [hfree] at hmem
  have hcount : inUseCountF s.callbacks < MAX_TIMERS := by
    unfold inUseCountF
    have hle : (Finset.univ.filter fun i => s.callbacks i ≠ 0).card ≤
        Fintype.card (Fin MAX_TIMERS) := Finset.card_le_univ _
    rcases lt_or_eq_of_le hle with h | h
    · simpa using h
    · exact absurd ((Finset.card_eq_iff_eq_univ _).mp h) hne
  obtain ⟨h1, _⟩ := hInv
  unfold inUseCount at h1
  rw [if_neg (by omega)]
  exact findFreeAux_isSome s MAX_TIMERS 0 ⟨j0, Nat.zero_le _, hfree⟩ (by omega)

theorem setTimer_success (d : Int) (f : Nat) (n : Int) (now : Nat) (s : SimpleTimer)
    (j : Fin MAX_TIMERS) (hfind : findFirstFreeSlot s = some j) (hf : f ≠ 0) :
    (setTimer d f n now s).1 = ((j : Nat) : Int) ∧
    (setTimer d f n now s).2.callbacks j = f ∧
    (setTimer d f n now s).2.delays j = d ∧
    (setTimer d f n now s).2.maxNumRuns j = n ∧
    (setTimer d f n now s).2.enabled j = true ∧
    (setTimer d f n now s).2.prev_millis j = now ∧
    (setTimer d f n now s).2.numRuns = s.numRuns ∧
    (setTimer d f n now s).2.numTimers = s.numTimers + 1 ∧
    (∀ i : Fin MAX_TIMERS, i ≠ j → (setTimer d f n now s).2.callbacks i = s.callbacks i) := by
  unfold setTimer
  rw [hfind]
  dsimp only
  rw [if_neg hf]
  refine ⟨rfl, Function.update_same _ _ _, Function.update_same _ _ _,
    Function.update_same _ _ _, Function.update_same _ _ _, Function.update_same _ _ _,
    rfl, rfl, fun i hij => Function.update_noteq hij _ _⟩

theorem setTimer_fail_none (d : Int) (f : Nat) (n : Int) (now : Nat) (s : SimpleTimer)
    (hfind : findFirstFreeSlot s = none) : setTimer d f n now s = (-1, s) := by
  unfold setTimer
  rw [hfind]

theorem setTimer_inv (d : Int) (f : Nat) (n : Int) (now : Nat) (s : SimpleTimer)
    (hInv : Inv s) : Inv (setTimer d f n now s).2 := by
  unfold setTimer
  cases hfind : findFirstFreeSlot s with
  | none => exact hInv
  | some j =>
    dsimp only
    by_cases hf : f = 0
    · rw [if_pos hf]
      exact hInv
    · rw [if_neg hf]
      obtain ⟨hlt, hfree, _⟩ := findFirstFreeSlot_some s j hfind
      obtain ⟨h1, h2⟩ := hInv
      have hc := inUseCountF_update_nonzero s.callbacks j f hfree hf
      unfold inUseCount at h1
      constructor
      · show s.numTimers + 1 = (inUseCountF (Function.update s.callbacks j f) : Int)
        omega
      · show s.numTimers + 1 ≤ (MAX_TIMERS : Int)
        omega

theorem deleteTimer_inv (i : Int) (s s2 : SimpleTimer) (hInv : Inv s)
    (h : deleteTimer i s = some s2) : Inv s2 := by
  unfold deleteTimer at h
  by_cases h1 : (MAX_TIMERS : Int) ≤ i
  · rw [dif_pos h1] at h
    injection h with h
    exact h ▸ hInv
  · rw [dif_neg h1] at h
    by_cases h2 : s.numTimers = 0
    · rw [if_pos h2] at h
      injection h with h
      exact h ▸ hInv
    · rw [if_neg h2] at h
      by_cases h3 : i < 0
      · rw [dif_pos h3] at h
        exact absurd h (by simp)
      · rw [dif_neg h3] at h
        injection h with h
        exact h ▸ deleteTimerCore_inv _ s hInv


/-! ### Remaining helper lemmas for the claims -/

theorem init_inv (now : Nat) (d0 m0 : Fin MAX_TIMERS → Int) (t0 : Fin MAX_TIMERS → Nat) :
    Inv (init now d0 m0 t0) := by
  constructor
  · show (0 : Int) = (inUseCountF (fun _ => 0) : Int)
    unfold inUseCountF
    simp
  · show (0 : Int) ≤ (MAX_TIMERS : Int)
    simp [MAX_TIMERS]

theorem restartTimer_inv (i : Int) (now : Nat) (s s2 : SimpleTimer) (hInv : Inv s)
    (h : restartTimer i now s = some s2) : Inv s2 := by
  unfold restartTimer at h
  by_cases h1 : (MAX_TIMERS : Int) ≤ i
  · rw [dif_pos h1] at h
    injection h with h
    exact h ▸ hInv
  · rw [dif_neg h1] at h
    by_cases h2 : i < 0
    · rw [dif_pos h2] at h
      exact absurd h (by simp)
    · rw [dif_neg h2] at h
      injection h with h
      exact h ▸ hInv

theorem enable_inv (i : Int) (s s2 : SimpleTimer) (hInv : Inv s)
    (h : enable i s = some s2) : Inv s2 := by
  unfold enable at h
  by_cases h1 : (MAX_TIMERS : Int) ≤ i
  · rw [dif_pos h1] at h
    injection h with h
    exact h ▸ hInv
  · rw [dif_neg h1] at h
    by_cases h2 : i < 0
    · rw [dif_pos h2] at h
      exact absurd h (by simp)
    · rw [dif_neg h2] at h
      injection h with h
      exact h ▸ hInv

theorem disable_inv (i : Int) (s s2 : SimpleTimer) (hInv : Inv s)
    (h : disable i s = some s2) : Inv s2 := by
  unfold disable at h
  by_cases h1 : (MAX_TIMERS : Int) ≤ i
  · rw [dif_pos h1] at h
    injection h with h
    exact h ▸ hInv
  · rw [dif_neg h1] at h
    by_cases h2 : i < 0
    · rw [dif_pos h2] at h
      exact absurd h (by simp)
    · rw [dif_neg h2] at h
      injection h with h
      exact h ▸ hInv

theorem toggle_inv (i : Int) (s s2 : SimpleTimer) (hInv : Inv s)
    (h : toggle i s = some s2) : Inv s2 := by
  unfold toggle at h
  by_cases h1 : (MAX_TIMERS : Int) ≤ i
  · rw [dif_pos h1] at h
    injection h with h
    exact h ▸ hInv
  · rw [dif_neg h1] at h
    by_cases h2 : i < 0
    · rw [dif_pos h2] at h
      exact absurd h (by simp)
    · rw [dif_neg h2] at h
      injection h with h
      exact h ▸ hInv

theorem decideAction_cases (now : Nat) (s : SimpleTimer) (j : Fin MAX_TIMERS) :
    decideAction now s j = DEFCALL_DONTRUN ∨ decideAction now s j = DEFCALL_RUNONLY ∨
    decideAction now s j = DEFCALL_RUNANDDEL := by
  unfold decideAction
  by_cases h1 : dueP now s j
  · rw [if_pos h1]
    by_cases h2 : s.enabled j = true
    · rw [if_pos h2]
      by_cases h3 : s.maxNumRuns j = RUN_FOREVER
      · rw [if_pos h3]
        exact Or.inr (Or.inl rfl)
      · rw [if_neg h3]
        by_cases h4 : s.numRuns j < s.maxNumRuns j
        · rw [if_pos h4]
          by_cases h5 : s.maxNumRuns j ≤ s.numRuns j + 1
          · rw [if_pos h5]
            exact Or.inr (Or.inr rfl)
          · rw [if_neg h5]
            exact Or.inr (Or.inl rfl)
        · rw [if_neg h4]
          exact Or.inl rfl
    · rw [if_neg h2]
      exact Or.inl rfl
  · rw [if_neg h1]
    exact Or.inl rfl

theorem run_prev (cbSem : Nat → SimpleTimer → SimpleTimer) (j : Fin MAX_TIMERS)
    (hcb : ∀ c t, SlotEq j t (cbSem c t)) (hcbInv : ∀ c t, Inv t → Inv (cbSem c t))
    (now : Nat) (s : SimpleTimer) (hInv : Inv s) :
    (run cbSem now s).1.prev_millis j = (phase1 now s).prev_millis j := by
  rcases decideAction_cases now s j with h | h | h
  · exact (run_skip cbSem j hcb now s (by rw [h]; decide) (by rw [h]; decide)).1.1
  · exact (run_fire cbSem j hcb now s h).1.1
  · exact (run_fireDel cbSem j hcb hcbInv now s hInv h).2.2.2.2.2.1

theorem decideAction_neg (now : Nat) (s : SimpleTimer) (j : Fin MAX_TIMERS) (n : Int)
    (hmx : s.maxNumRuns j = n) (hnr : s.numRuns j = 0) (hneg : n < 0) :
    decideAction now s j = DEFCALL_DONTRUN := by
  unfold decideAction
  by_cases h1 : dueP now s j
  · rw [if_pos h1]
    by_cases h2 : s.enabled j = true
    · rw [if_pos h2, hmx, hnr, if_neg (show ¬ n = (0 : Int) by omega),
        if_neg (by omega : ¬ (0 : Int) < n)]
    · rw [if_neg h2]
  · rw [if_neg h1]

theorem runSeq_never (cbSem : Nat → SimpleTimer → SimpleTimer) (j : Fin MAX_TIMERS)
    (hcb : ∀ c t, SlotEq j t (cbSem c t)) (f : Nat) (n : Int) (hf : f ≠ 0) (hneg : n < 0) :
    ∀ (ts : List Nat) (s : SimpleTimer), s.callbacks j = f → s.maxNumRuns j = n →
      s.numRuns j = 0 →
      (runSeq cbSem ts s).1.callbacks j = f ∧ (runSeq cbSem ts s).1.maxNumRuns j = n ∧
      (runSeq cbSem ts s).1.numRuns j = 0 ∧ (runSeq cbSem ts s).2.count j = 0
  | [], s, hcall, hmx, hnr => ⟨hcall, hmx, hnr, rfl⟩
  | t :: ts, s, hcall, hmx, hnr => by
    have ha := decideAction_neg t s j n hmx hnr hneg
    obtain ⟨heq, hcnt⟩ := run_skip cbSem j hcb t s (by rw [ha]; decide) (by rw [ha]; decide)
    have hnr1 : (phase1 t s).numRuns j = s.numRuns j := by
      show (if dueP t s j ∧ s.enabled j = true ∧ s.maxNumRuns j ≠ RUN_FOREVER ∧
          s.numRuns j < s.maxNumRuns j then s.numRuns j + 1 else s.numRuns j) = s.numRuns j
      rw [if_neg]
      rintro ⟨_, _, _, hlt⟩
      rw [hnr, hmx] at hlt
      omega
    have ih := runSeq_never cbSem j hcb f n hf hneg ts (run cbSem t s).1
      (heq.2.1.trans hcall) (heq.2.2.2.1.trans hmx) (heq.2.2.2.2.1.trans (hnr1.trans hnr))
    simp only [runSeq, List.count_append]
    exact ⟨ih.1, ih.2.1, ih.2.2.1, by omega⟩


/-! ### The spec claims -/

/-- C3: for an in-use enabled slot with period `p > 0` whose elapsed time
at a poll is `k·p` with `k ≥ 2`, a single `run()` call delivers at most
one fire to that slot, advances its baseline by exactly one period (to
`t0 + p`), and the slot is due again (elapsed still `≥ p`) at any
not-earlier next poll `now2`, until the baseline catches up. -/
theorem C3_no_catchup_burst (cbSem : Nat → SimpleTimer → SimpleTimer) (j : Fin MAX_TIMERS)
    (hcb : ∀ c t, SlotEq j t (cbSem c t)) (hcbInv : ∀ c t, Inv t → Inv (cbSem c t))
    (s : SimpleTimer) (hInv : Inv s) (c : Nat) (p : Nat) (n r : Int) (t0 k now2 : Nat)
    (hcfg : SlotCfg s j c p n r t0) (hc : c ≠ 0) (hp : 0 < p) (hk : 2 ≤ k)
    (hM : t0 + k * p < ULONG_MOD) (hnow2 : t0 + k * p ≤ now2) (hnow2M : now2 < ULONG_MOD) :
    (run cbSem (t0 + k * p) s).2.count j ≤ 1 ∧
    (run cbSem (t0 + k * p) s).1.prev_millis j = t0 + p ∧
    p ≤ wsub now2 ((run cbSem (t0 + k * p) s).1.prev_millis j) := by
  have hkp : p ≤ k * p := Nat.le_mul_of_pos_left p (by omega)
  have h2p : 2 * p ≤ k * p := Nat.mul_le_mul_right p hk
  have hwt : wsub (t0 + k * p) t0 = k * p := by
    have := wsub_lt (t0 + k * p) t0 (by omega) (by omega) (by omega)
    omega
  have hdue : p ≤ wsub (t0 + k * p) t0 := by omega
  have hprev : (run cbSem (t0 + k * p) s).1.prev_millis j = t0 + p := by
    rw [run_prev cbSem j hcb hcbInv _ s hInv,
      phase1_cfg_prev _ s j c p n r t0 hcfg hc (by omega), if_pos hdue,
      Nat.mod_eq_of_lt (by omega)]
  refine ⟨?_, hprev, ?_⟩
  · calc (run cbSem (t0 + k * p) s).2.count j ≤ (List.finRange MAX_TIMERS).count j :=
        phase2_count_le cbSem j _ _
      _ ≤ 1 := (List.nodup_iff_count_le_one.mp (List.nodup_finRange _)) j
  · rw [hprev, wsub_lt now2 (t0 + p) (by omega) (by omega) hnow2M]
    omega

/-- C3 witness: two due periods `k = 5`, `p = 1` on slot 0 of `sTwo` at
`now = 5`; one fire at most, baseline moves to 1, still due at the next
poll at 5. -/
theorem C3_no_catchup_burst_witness :
    (run cbPure 5 sTwo).2.count 0 ≤ 1 ∧ (run cbPure 5 sTwo).1.prev_millis 0 = 0 + 1 ∧
    1 ≤ wsub 5 ((run cbPure 5 sTwo).1.prev_millis 0) :=
  C3_no_catchup_burst cbPure 0 (fun c t => slotEq_refl 0 t) (fun _ _ ht => ht) sTwo
    (by decide) 1 1 0 0 0 5 5 (by decide) (by decide) (by decide) (by decide) (by decide)
    (by decide) (by decide)

/-- C4: the elapsed-time computation of `run()` is the wraparound-safe
unsigned subtraction: for true times `Tprev ≤ Tnow` whose distance is
below one wraparound period, the computed elapsed value
`wsub (Tnow % 2^32) (Tprev % 2^32)` is exactly `Tnow - Tprev` even when
the counter wraps between the two polls, and the firing test `dueP` for
a slot with baseline `Tprev % 2^32` and period `p` holds iff
`p ≤ Tnow - Tprev`. -/
theorem C4_wraparound_safe (s : SimpleTimer) (j : Fin MAX_TIMERS) (p : Nat)
    (Tprev Tnow : Nat) (hc : s.callbacks j ≠ 0) (hd : s.delays j = ((p : Nat) : Int))
    (hp : p < ULONG_MOD) (hprev : s.prev_millis j = Tprev % ULONG_MOD)
    (hle : Tprev ≤ Tnow) (hw : Tnow - Tprev < ULONG_MOD) :
    wsub (Tnow % ULONG_MOD) (Tprev % ULONG_MOD) = Tnow - Tprev ∧
    (dueP (Tnow % ULONG_MOD) s j ↔ p ≤ Tnow - Tprev) := by
  have h1 := wsub_exact Tnow Tprev hle hw
  refine ⟨h1, ?_⟩
  unfold dueP
  rw [hd, hprev, toULong_coe p hp, h1]
  simp [hc]

/-- C4 witness: a timer with period 10 whose baseline sits 5 ticks
before the wrap point, polled 7 ticks after the wrap: elapsed is 12 and
the slot is due. -/
theorem C4_wraparound_safe_witness :
    wsub ((ULONG_MOD + 7) % ULONG_MOD) ((ULONG_MOD - 5) % ULONG_MOD) =
      (ULONG_MOD + 7) - (ULONG_MOD - 5) ∧
    (dueP ((ULONG_MOD + 7) % ULONG_MOD) (setTimer 10 7 0 (ULONG_MOD - 5) sEmpty).2 0 ↔
      10 ≤ (ULONG_MOD + 7) - (ULONG_MOD - 5)) :=
  C4_wraparound_safe (setTimer 10 7 0 (ULONG_MOD - 5) sEmpty).2 0 10 (ULONG_MOD - 5)
    (ULONG_MOD + 7) (by decide) (by decide) (by decide) (by decide) (by decide) (by decide)

/-- C5: every operation preserves the invariant that `numTimers` equals
the number of slots whose callback pointer is present and stays within
the capacity: the constructor establishes it, and `setTimer`,
`deleteTimer`, `restartTimer`, `enable`, `disable`, `toggle` and `run`
(with callbacks that preserve it) maintain it. -/
theorem C5_every_op_preserves_invariant (now : Nat) (d0 m0 : Fin MAX_TIMERS → Int)
    (t0 : Fin MAX_TIMERS → Nat) (d : Int) (f : Nat) (n : Int) (i : Int)
    (cbSem : Nat → SimpleTimer → SimpleTimer) (hcbInv : ∀ c t, Inv t → Inv (cbSem c t))
    (s : SimpleTimer) (hInv : Inv s) :
    Inv (init now d0 m0 t0) ∧
    Inv (setTimer d f n now s).2 ∧
    (∀ s2, deleteTimer i s = some s2 → Inv s2) ∧
    (∀ s2, restartTimer i now s = some s2 → Inv s2) ∧
    (∀ s2, enable i s = some s2 → Inv s2) ∧
    (∀ s2, disable i s = some s2 → Inv s2) ∧
    (∀ s2, toggle i s = some s2 → Inv s2) ∧
    Inv (run cbSem now s).1 :=
  ⟨init_inv now d0 m0 t0, setTimer_inv d f n now s hInv,
    fun s2 h => deleteTimer_inv i s s2 hInv h,
    fun s2 h => restartTimer_inv i now s s2 hInv h,
    fun s2 h => enable_inv i s s2 hInv h,
    fun s2 h => disable_inv i s s2 hInv h,
    fun s2 h => toggle_inv i s s2 hInv h,
    run_inv cbSem hcbInv now s hInv⟩

/-- C5 witness: the invariant holds for a fresh set, after a concrete
registration, and after a concrete poll. -/
theorem C5_every_op_preserves_invariant_witness :
    Inv (init 3 junkD junkD junkT) ∧ Inv (setTimer 5 9 2 4 sOne).2 ∧
    Inv (run cbPure 5 sOne).1 := by
  have h := C5_every_op_preserves_invariant 3 junkD junkD junkT 5 9 2 0 cbPure
    (fun _ _ ht => ht) sOne (by decide)
  have h2 := C5_every_op_preserves_invariant 4 junkD junkD junkT 5 9 2 0 cbPure
    (fun _ _ ht => ht) sOne (by decide)
  have h3 := C5_every_op_preserves_invariant 5 junkD junkD junkT 5 9 2 0 cbPure
    (fun _ _ ht => ht) sOne (by decide)
  exact ⟨h.1, h2.2.1, h3.2.2.2.2.2.2.2⟩

/-- C8: an in-use slot that is disabled never has its callback invoked by
a poll, yet its baseline still advances by one period whenever a full
period has elapsed; and for any in-use enabled slot whose elapsed time is
still below its period (e.g. one just re-enabled mid-period), a poll
delivers no fire. -/
theorem C8_disabled_advances_without_firing (cbSem : Nat → SimpleTimer → SimpleTimer)
    (hpure : ∀ c t, cbSem c t = t) (s : SimpleTimer) (j : Fin MAX_TIMERS) (now : Nat)
    (_hc : s.callbacks j ≠ 0) (hdis : s.enabled j = false) :
    (run cbSem now s).2.count j = 0 ∧
    (run cbSem now s).1.prev_millis j =
      (if dueP now s j then (s.prev_millis j + toULong (s.delays j)) % ULONG_MOD
       else s.prev_millis j) ∧
    (∀ (t : SimpleTimer) (now2 : Nat), t.callbacks j ≠ 0 → t.enabled j = true →
      wsub now2 (t.prev_millis j) < toULong (t.delays j) →
      (run cbSem now2 t).2.count j = 0) := by
  have hcb := pure_slotEq cbSem hpure j
  have ha : decideAction now s j = DEFCALL_DONTRUN := by
    unfold decideAction
    by_cases hd : dueP now s j
    · rw [if_pos hd, if_neg (by simp [hdis])]
    · rw [if_neg hd]
  obtain ⟨heq, hcnt⟩ := run_skip cbSem j hcb now s (by rw [ha]; decide) (by rw [ha]; decide)
  refine ⟨hcnt, heq.1, ?_⟩
  intro t now2 htc hten hlt
  have ha2 : decideAction now2 t j = DEFCALL_DONTRUN := by
    unfold decideAction
    rw [if_neg]
    rintro ⟨_, hdue⟩
    omega
  exact (run_skip cbSem j hcb now2 t (by rw [ha2]; decide) (by rw [ha2]; decide)).2

/-- C8 witness: the disabled slot 0 of `sDis` is due at `now = 5` but
does not fire, while its baseline advances; and the enabled slot 0 of
`sOne` polled before its period elapses does not fire. -/
theorem C8_disabled_advances_without_firing_witness :
    (run cbPure 5 sDis).2.count 0 = 0 ∧ (run cbPure 0 sOne).2.count 0 = 0 := by
  have h := C8_disabled_advances_without_firing cbPure (fun _ _ => rfl) sDis 0 5
    (by decide) (by decide)
  exact ⟨h.1, h.2.2 sOne 0 (by decide) (by decide) (by decide)⟩


/-- C2 witness: period 1, limit 1, registered at tick 0 in slot 0
(`sOne`), polled at ticks 0 and 1: exactly one fire, then the slot is
free. -/
theorem C2_bounded_timer_fires_exactly_n_witness :
    (runSeq cbPure ((List.range 2).map uW) sOne).2.count 0 = 1 ∧
    (runSeq cbPure ((List.range 2).map uW) sOne).1.callbacks 0 = 0 :=
  (C2_bounded_timer_fires_exactly_n cbPure (fun _ _ => rfl) uW
    (fun _ _ h => min_le_min h (le_refl 5))
    (fun k => lt_of_le_of_lt (min_le_right k 5) (by norm_num))
    sOne 0 7 1 1 0 1 (by decide) (by decide) (by decide) (by decide) (by decide)
    (by decide) (by decide)).2 2 (by norm_num)

/-- C9: whenever `setTimer` succeeds (returns a result other than `-1`),
the chosen slot ends with the supplied period, callback and run limit,
`enabled = true`, `runs_so_far = 0`, baseline = the current tick,
`numTimers` is incremented, and the returned value is that slot's index.
(The hypothesis that free slots carry `numRuns = 0` is the invariant
established by the constructor and by `deleteTimer`, which both reset
`numRuns`.) -/
theorem C9_setTimer_success_postcondition (d : Int) (f : Nat) (n : Int) (now : Nat)
    (s : SimpleTimer)
    (hfreeRuns : ∀ i : Fin MAX_TIMERS, s.callbacks i = 0 → s.numRuns i = 0)
    (r : Int) (s2 : SimpleTimer) (hcall : setTimer d f n now s = (r, s2)) (hr : r ≠ -1) :
    ∃ j : Fin MAX_TIMERS, r = ((j : Nat) : Int) ∧ s2.callbacks j = f ∧
      s2.delays j = d ∧ s2.maxNumRuns j = n ∧ s2.enabled j = true ∧ s2.numRuns j = 0 ∧
      s2.prev_millis j = now ∧ s2.numTimers = s.numTimers + 1 := by
  unfold setTimer at hcall
  cases hfind : findFirstFreeSlot s with
  | none =>
    rw [hfind] at hcall
    dsimp only at hcall
    injection hcall with h1 h2
    exact absurd h1.symm hr
  | some j =>
    rw [hfind] at hcall
    dsimp only at hcall
    by_cases hf : f = 0
    · rw [if_pos hf] at hcall
      injection hcall with h1 h2
      exact absurd h1.symm hr
    · rw [if_neg hf] at hcall
      injection hcall with h1 h2
      obtain ⟨_, hfree, _⟩ := findFirstFreeSlot_some s j hfind
      subst h2
      exact ⟨j, h1.symm, Function.update_same _ _ _, Function.update_same _ _ _,
        Function.update_same _ _ _, Function.update_same _ _ _, hfreeRuns j hfree,
        Function.update_same _ _ _, rfl⟩

/-- C9 witness: registering period 1, callback 7, limit 1 at tick 0 on a
fresh set succeeds with all the promised postconditions. -/
theorem C9_setTimer_success_postcondition_witness :
    ∃ j : Fin MAX_TIMERS, (setTimer 1 7 1 0 sEmpty).1 = ((j : Nat) : Int) ∧
      (setTimer 1 7 1 0 sEmpty).2.callbacks j = 7 ∧
      (setTimer 1 7 1 0 sEmpty).2.delays j = 1 ∧
      (setTimer 1 7 1 0 sEmpty).2.maxNumRuns j = 1 ∧
      (setTimer 1 7 1 0 sEmpty).2.enabled j = true ∧
      (setTimer 1 7 1 0 sEmpty).2.numRuns j = 0 ∧
      (setTimer 1 7 1 0 sEmpty).2.prev_millis j = 0 ∧
      (setTimer 1 7 1 0 sEmpty).2.numTimers = sEmpty.numTimers + 1 :=
  C9_setTimer_success_postcondition 1 7 1 0 sEmpty (by decide)
    (setTimer 1 7 1 0 sEmpty).1 (setTimer 1 7 1 0 sEmpty).2 rfl (by decide)

/-- C6: registration picks the lowest-indexed free slot; when all slots
are in use registration fails with `-1` (`CapacityExceeded`) and changes
no state; deleting one in-use timer from a full set frees exactly that
slot (decrementing `numTimers` by one) and a subsequent registration
succeeds reusing the freed index. -/
theorem C6_capacity_and_reuse (d : Int) (f : Nat) (n : Int) (now : Nat) (s : SimpleTimer)
    (hInv : Inv s) (hf : f ≠ 0) (k : Fin MAX_TIMERS) :
    (∀ (j : Fin MAX_TIMERS) (s2 : SimpleTimer),
      setTimer d f n now s = (((j : Nat) : Int), s2) →
      s.callbacks j = 0 ∧ ∀ i : Fin MAX_TIMERS, (i : Nat) < (j : Nat) →
        s.callbacks i ≠ 0) ∧
    ((∀ i : Fin MAX_TIMERS, s.callbacks i ≠ 0) → setTimer d f n now s = (-1, s)) ∧
    ((∀ i : Fin MAX_TIMERS, s.callbacks i ≠ 0) →
      ∀ s2, deleteTimer ((k : Nat) : Int) s = some s2 →
        s2.callbacks k = 0 ∧
        (∀ i : Fin MAX_TIMERS, i ≠ k → s2.callbacks i = s.callbacks i ∧
          s2.callbacks i ≠ 0) ∧
        s2.numTimers = s.numTimers - 1 ∧
        (setTimer d f n now s2).1 = ((k : Nat) : Int) ∧
        (setTimer d f n now s2).2.callbacks k = f) := by
  obtain ⟨hI1, hI2⟩ := hInv
  refine ⟨?_, ?_, ?_⟩
  · intro j s2 hcall
    unfold setTimer at hcall
    cases hfind : findFirstFreeSlot s with
    | none =>
      rw [hfind] at hcall
      dsimp only at hcall
      injection hcall with h1 h2
      omega
    | some j2 =>
      rw [hfind] at hcall
      dsimp only at hcall
      rw [if_neg hf] at hcall
      injection hcall with h1 h2
      have hval : (j2 : Nat) = (j : Nat) := by exact_mod_cast h1
      obtain rfl : j2 = j := Fin.ext hval
      obtain ⟨_, hfree, hleast⟩ := findFirstFreeSlot_some s j2 hfind
      exact ⟨hfree, hleast⟩
  · intro hall
    have hfull : inUseCountF s.callbacks = MAX_TIMERS := by
      unfold inUseCountF
      rw [Finset.filter_true_of_mem (fun i _ => hall i)]
      simp [MAX_TIMERS]
    apply setTimer_fail_none
    unfold findFirstFreeSlot
    rw [if_pos]
    unfold inUseCount at hI1
    omega
  · intro hall s2 hdel
    have hfull : inUseCountF s.callbacks = MAX_TIMERS := by
      unfold inUseCountF
      rw [Finset.filter_true_of_mem (fun i _ => hall i)]
      simp [MAX_TIMERS]
    have hnz : s.numTimers ≠ 0 := by
      unfold inUseCount at hI1
      simp only [MAX_TIMERS] at hfull
      omega
    unfold deleteTimer at hdel
    rw [dif_neg (by have := k.isLt; simp only [MAX_TIMERS] at *; omega)] at hdel
    rw [if_neg hnz] at hdel
    rw [dif_neg (by omega)] at hdel
    injection hdel with hdel
    have hkk : (⟨(((k : Nat) : Int)).toNat, by simp only [MAX_TIMERS] at *; omega⟩ :
        Fin MAX_TIMERS) = k := Fin.ext (by simp)
    rw [hkk] at hdel
    have hcore : deleteTimerCore k s =
        { s with
          callbacks := Function.update s.callbacks k 0
          enabled := Function.update s.enabled k false
          toBeCalled := Function.update s.toBeCalled k DEFCALL_DONTRUN
          delays := Function.update s.delays k 0
          numRuns := Function.update s.numRuns k 0
          numTimers := s.numTimers - 1 } := by
      unfold deleteTimerCore
      rw [if_neg hnz, if_pos (hall k)]
    rw [hcore] at hdel
    have hfreeK : s2.callbacks k = 0 := by
      rw [← hdel]
      exact Function.update_same _ _ _
    have hothers : ∀ i : Fin MAX_TIMERS, i ≠ k →
        s2.callbacks i = s.callbacks i ∧ s2.callbacks i ≠ 0 := by
      intro i hik
      have : s2.callbacks i = s.callbacks i := by
        rw [← hdel]
        exact Function.update_noteq hik _ _
      exact ⟨this, this ▸ hall i⟩
    have hnum : s2.numTimers = s.numTimers - 1 := by rw [← hdel]
    have hInv2 : Inv s2 := by
      rw [← hdel, ← hcore]
      exact deleteTimerCore_inv k s ⟨hI1, hI2⟩
    obtain ⟨j2, hfind2⟩ := findFirstFreeSlot_of_free s2 hInv2 k hfreeK
    obtain ⟨_, hfree2, _⟩ := findFirstFreeSlot_some s2 j2 hfind2
    have hj2 : j2 = k := by
      by_contra hne
      exact (hothers j2 hne).2 hfree2
    subst hj2
    obtain ⟨e1, e2, _⟩ := setTimer_success d f n now s2 j2 hfind2 hf
    exact ⟨hfreeK, hothers, hnum, e1, e2⟩

/-- C6 witness: on the full set `sFull`, an 11th registration fails
unchanged; deleting slot 3 frees it and the next registration reuses
index 3. -/
theorem C6_capacity_and_reuse_witness :
    setTimer 1 11 0 0 sFull = (-1, sFull) ∧
    (deleteTimerCore 3 sFull).callbacks 3 = 0 ∧
    (setTimer 1 11 0 0 (deleteTimerCore 3 sFull)).1 = ((3 : Nat) : Int) ∧
    (setTimer 1 11 0 0 (deleteTimerCore 3 sFull)).2.callbacks 3 = 11 := by
  have h := C6_capacity_and_reuse 1 11 0 0 sFull (by decide) (by decide) 3
  have h3 := h.2.2 (by decide) (deleteTimerCore 3 sFull) rfl
  exact ⟨h.2.1 (by decide), h3.1, h3.2.2.2.1, h3.2.2.2.2⟩

/-- C10: registering with a negative run limit `n < 0` and a non-null
callback succeeds whenever a free slot exists (no validation of `n`),
but the resulting slot never fires and is never auto-deleted by any
subsequent sequence of polls: it stays in use (with its callback,
run limit and `runs_so_far = 0` intact, and `numTimers` incremented)
until explicitly deleted, because the fire condition requires
`runs_so_far < n`. -/
theorem C10_negative_limit_never_fires (cbSem : Nat → SimpleTimer → SimpleTimer)
    (hpure : ∀ c t, cbSem c t = t) (d : Int) (f : Nat) (hf : f ≠ 0) (n : Int)
    (hneg : n < 0) (now : Nat) (s : SimpleTimer) (j : Fin MAX_TIMERS)
    (hfind : findFirstFreeSlot s = some j) (hfr : s.numRuns j = 0) (ts : List Nat) :
    (setTimer d f n now s).1 = ((j : Nat) : Int) ∧
    (setTimer d f n now s).2.numTimers = s.numTimers + 1 ∧
    (runSeq cbSem ts (setTimer d f n now s).2).2.count j = 0 ∧
    (runSeq cbSem ts (setTimer d f n now s).2).1.callbacks j = f ∧
    (runSeq cbSem ts (setTimer d f n now s).2).1.maxNumRuns j = n ∧
    (runSeq cbSem ts (setTimer d f n now s).2).1.numRuns j = 0 := by
  obtain ⟨e1, e2, _, e4, _, _, e7, e8, _⟩ := setTimer_success d f n now s j hfind hf
  have hnr : (setTimer d f n now s).2.numRuns j = 0 := by
    rw [e7]
    exact hfr
  have h := runSeq_never cbSem j (pure_slotEq cbSem hpure j) f n hf hneg ts
    (setTimer d f n now s).2 e2 e4 hnr
  exact ⟨e1, e8, h.2.2.2, h.1, h.2.1, h.2.2.1⟩

/-- C10 witness: registering with limit `-3` on a fresh set returns slot
0; four subsequent polls deliver no fire and leave the slot in use. -/
theorem C10_negative_limit_never_fires_witness :
    (setTimer 1 7 (-3) 0 sEmpty).1 = ((0 : Nat) : Int) ∧
    (setTimer 1 7 (-3) 0 sEmpty).2.numTimers = sEmpty.numTimers + 1 ∧
    (runSeq cbPure [0, 1, 2, 3] (setTimer 1 7 (-3) 0 sEmpty).2).2.count 0 = 0 ∧
    (runSeq cbPure [0, 1, 2, 3] (setTimer 1 7 (-3) 0 sEmpty).2).1.callbacks 0 = 7 ∧
    (runSeq cbPure [0, 1, 2, 3] (setTimer 1 7 (-3) 0 sEmpty).2).1.maxNumRuns 0 = -3 ∧
    (runSeq cbPure [0, 1, 2, 3] (setTimer 1 7 (-3) 0 sEmpty).2).1.numRuns 0 = 0 :=
  C10_negative_limit_never_fires cbPure (fun _ _ => rfl) 1 7 (by decide) (-3) (by decide)
    0 sEmpty 0 (by decide) (by decide) [0, 1, 2, 3]

/-- C1 counterexample: in `sTwo` both slots are decided `RUNONLY` in
phase 1 of the poll at tick 5, and slot 0's callback (id 1) deletes slot
1 during phase 2; contrary to the claim, slot 1's decided action is NOT
executed later in that same phase 2: the fire log is `[0]` only, and
slot 1 ends the pass free. -/
theorem C1_counterexample :
    decideAction 5 sTwo 1 = DEFCALL_RUNONLY ∧
    (run cbDel1 5 sTwo).2 = [0] ∧
    (run cbDel1 5 sTwo).1.callbacks 1 = 0 := by decide

/-- C1 amended: every firing decision is frozen in phase 1 (the value of
`decideAction`), and for a slot `j` whose fields and the bookkeeping
invariant are left intact by every callback run in phase 2 (in
particular, no earlier callback deletes slot `j`), the decided action is
executed in that same phase 2: `RUNONLY` yields exactly one invocation,
`RUNANDDEL` yields one invocation followed by deletion of the slot, and
`DONTRUN` yields none.  However, `deleteTimer` on an in-use slot `j`
resets `toBeCalled[j]` to `DONTRUN`, so a callback that deletes a
different not-yet-processed slot `j` cancels slot `j`'s decided action
rather than letting it execute. -/
theorem C1_amended_frozen_decisions (cbSem : Nat → SimpleTimer → SimpleTimer)
    (j : Fin MAX_TIMERS) (hcb : ∀ c t, SlotEq j t (cbSem c t))
    (hcbInv : ∀ c t, Inv t → Inv (cbSem c t)) (now : Nat) (s : SimpleTimer)
    (hInv : Inv s) :
    (decideAction now s j = DEFCALL_RUNONLY → (run cbSem now s).2.count j = 1) ∧
    (decideAction now s j = DEFCALL_RUNANDDEL →
      (run cbSem now s).2.count j = 1 ∧ (run cbSem now s).1.callbacks j = 0) ∧
    (decideAction now s j = DEFCALL_DONTRUN → (run cbSem now s).2.count j = 0) ∧
    (∀ t : SimpleTimer, t.callbacks j ≠ 0 → t.numTimers ≠ 0 →
      (deleteTimerCore j t).toBeCalled j = DEFCALL_DONTRUN) := by
  refine ⟨?_, ?_, ?_, ?_⟩
  · intro h
    exact (run_fire cbSem j hcb now s h).2
  · intro h
    obtain ⟨e1, _, _, _, _, _, _, e8⟩ := run_fireDel cbSem j hcb hcbInv now s hInv h
    exact ⟨e8, e1⟩
  · intro h
    exact (run_skip cbSem j hcb now s (by rw [h]; decide) (by rw [h]; decide)).2
  · intro t htc htn
    unfold deleteTimerCore
    rw [if_neg htn, if_pos htc]
    exact Function.update_same _ _ _

/-- C1 amended witness: with non-interfering callbacks, both decided
`RUNONLY` actions of `sTwo` at tick 5 are executed (one fire each). -/
theorem C1_amended_frozen_decisions_witness :
    (run cbPure 5 sTwo).2.count 0 = 1 ∧ (run cbPure 5 sTwo).2.count 1 = 1 := by
  have h0 := C1_amended_frozen_decisions cbPure 0 (fun _ t => slotEq_refl 0 t)
    (fun _ _ ht => ht) 5 sTwo (by decide)
  have h1 := C1_amended_frozen_decisions cbPure 1 (fun _ t => slotEq_refl 1 t)
    (fun _ _ ht => ht) 5 sTwo (by decide)
  exact ⟨h0.1 (by decide), h1.1 (by decide)⟩

/-- C7 counterexample: the claim fails in two ways on the code.  On a
fresh set slot 0 is in range and already free, yet `toggle 0` is not a
no-op: it flips the slot's enabled flag from `false` to `true`.  And a
negative index is not guarded at all: `enable (-1)` reaches
`enabled[-1]` out of bounds (modelled as `none`) instead of being a
no-op. -/
theorem C7_counterexample :
    sEmpty.callbacks 0 = 0 ∧ sEmpty.enabled 0 = false ∧
    (toggle 0 sEmpty).map (fun t => t.enabled 0) = some true ∧
    enable (-1) sEmpty = none :=
  ⟨by decide, by decide, by decide, rfl⟩

/-- C7 amended: every control operation given an index `≥ MAX_TIMERS` is
a no-op returning the state unchanged, and `isEnabled` returns `false`
there; on any in-range index no operation faults, and `deleteTimer` on an
in-range already-free slot is exactly a no-op (while
`enable`/`disable`/`toggle`/`restartTimer` on a free in-range slot
succeed but may alter that slot's enabled flag or baseline); a negative
index, however, is unguarded: `enable`, `disable`, `toggle`,
`restartTimer` and `isEnabled` perform an out-of-bounds access, and so
does `deleteTimer` unless no timers are in use (its `numTimers == 0`
early-return comes before the array access). -/
theorem C7_amended_index_guards (s : SimpleTimer) (i : Int) (now : Nat)
    (j : Fin MAX_TIMERS) :
    ((MAX_TIMERS : Int) ≤ i →
      deleteTimer i s = some s ∧ restartTimer i now s = some s ∧ enable i s = some s ∧
      disable i s = some s ∧ toggle i s = some s ∧ isEnabled i s = some false) ∧
    (0 ≤ i → i < (MAX_TIMERS : Int) →
      (deleteTimer i s).isSome = true ∧ (restartTimer i now s).isSome = true ∧
      (enable i s).isSome = true ∧ (disable i s).isSome = true ∧
      (toggle i s).isSome = true ∧ (isEnabled i s).isSome = true) ∧
    (s.callbacks j = 0 → deleteTimer ((j : Nat) : Int) s = some s) ∧
    (i < 0 →
      enable i s = none ∧ disable i s = none ∧ toggle i s = none ∧
      restartTimer i now s = none ∧ isEnabled i s = none ∧
      (s.numTimers ≠ 0 → deleteTimer i s = none) ∧
      (s.numTimers = 0 → deleteTimer i s = some s)) := by
  refine ⟨?_, ?_, ?_, ?_⟩
  · intro h
    unfold deleteTimer restartTimer enable disable toggle isEnabled
    rw [dif_pos h, dif_pos h, dif_pos h, dif_pos h, dif_pos h, dif_pos h]
    exact ⟨rfl, rfl, rfl, rfl, rfl, rfl⟩
  · intro h0 hlt
    have hn1 : ¬ (MAX_TIMERS : Int) ≤ i := by omega
    have hn2 : ¬ i < 0 := by omega
    refine ⟨?_, ?_, ?_, ?_, ?_, ?_⟩
    · unfold deleteTimer
      rw [dif_neg hn1]
      by_cases h2 : s.numTimers = 0
      · rw [if_pos h2]
        rfl
      · rw [if_neg h2, dif_neg hn2]
        rfl
    · unfold restartTimer
      rw [dif_neg hn1, dif_neg hn2]
      rfl
    · unfold enable
      rw [dif_neg hn1, dif_neg hn2]
      rfl
    · unfold disable
      rw [dif_neg hn1, dif_neg hn2]
      rfl
    · unfold toggle
      rw [dif_neg hn1, dif_neg hn2]
      rfl
    · unfold isEnabled
      rw [dif_neg hn1, dif_neg hn2]
      rfl
  · intro hfree
    have hjlt : ¬ (MAX_TIMERS : Int) ≤ ((j : Nat) : Int) := by
      have := j.isLt
      simp only [MAX_TIMERS] at *
      omega
    unfold deleteTimer
    rw [dif_neg hjlt]
    by_cases h2 : s.numTimers = 0
    · rw [if_pos h2]
    · rw [if_neg h2, dif_neg (by omega)]
      have hkk : (⟨(((j : Nat) : Int)).toNat, by simp⟩ : Fin MAX_TIMERS) = j :=
        Fin.ext (by simp)
      rw [hkk]
      unfold deleteTimerCore
      rw [if_neg h2, if_neg (by simp [hfree])]
  · intro hneg
    have hn1 : ¬ (MAX_TIMERS : Int) ≤ i := by
      simp only [MAX_TIMERS]
      omega
    refine ⟨?_, ?_, ?_, ?_, ?_, ?_, ?_⟩
    · unfold enable
      rw [dif_neg hn1, dif_pos hneg]
    · unfold disable
      rw [dif_neg hn1, dif_pos hneg]
    · unfold toggle
      rw [dif_neg hn1, dif_pos hneg]
    · unfold restartTimer
      rw [dif_neg hn1, dif_pos hneg]
    · unfold isEnabled
      rw [dif_neg hn1, dif_pos hneg]
    · intro h2
      unfold deleteTimer
      rw [dif_neg hn1, if_neg h2, dif_pos hneg]
    · intro h2
      unfold deleteTimer
      rw [dif_neg hn1, if_pos h2]

/-- C7 amended witness: concrete checks of the amended guarantees on
`sOne`. -/
theorem C7_amended_index_guards_witness :
    toggle 20 sOne = some sOne ∧ isEnabled 20 sOne = some false ∧
    deleteTimer ((3 : Nat) : Int) sOne = some sOne ∧ toggle (-1) sOne = none := by
  have h := C7_amended_index_guards sOne 20 0 3
  have h2 := C7_amended_index_guards sOne (-1) 0 3
  exact ⟨(h.1 (by decide)).2.2.2.2.1, (h.1 (by decide)).2.2.2.2.2,
    h.2.2.1 (by decide), (h2.2.2.2 (by decide)).2.2.1⟩

end SimpleTimer

end SimpleTimerSpec
